import Mathlib

/-!
Verification of the purchase-order tracking system (Flask app `app.py`,
spreadsheet importer `importar_planilha_ctc.py`) against its natural-language
specification.  Python strings are modeled as lists of code points (`PyStr`);
the data of this system is ASCII, and the string primitives (`strip`, `upper`,
`replace`, SQLite `TRIM`/`UPPER`/`REPLACE`) are modeled on that alphabet.
Decimal amounts are modeled as rationals; calendar dates are modeled by their
day numbers (a stored `data_criacao_sc` text is `some d` when SQLite `date()`
parses it to day `d`, and `none` when the text is blank or unparseable, in
which case a SQL date comparison rejects the row).
-/

namespace PedidoSpec

/-- Python strings as lists of code points. -/
abbrev PyStr := List Nat

/-- Code points of a Lean string literal, for writing concrete inputs. -/
def toPyStr (s : String) : PyStr := s.data.map Char.toNat

/-- ASCII whitespace stripped by the Python `str.strip()` default. -/
def isWS (c : Nat) : Bool := c == 32 || c == 9 || c == 10 || c == 11 || c == 12 || c == 13

/-- Uppercasing of one ASCII code point, as done by Python `str.upper` and by
SQLite `UPPER` on the ASCII data of this system. -/
def upChar (c : Nat) : Nat := if 97 ≤ c && c ≤ 122 then c - 32 else c

/-- Python `str.strip()` (ASCII whitespace at both ends). -/
def pyStrip (s : PyStr) : PyStr := ((s.dropWhile isWS).reverse.dropWhile isWS).reverse

/-- Python `str.upper()` (ASCII). -/
def pyUpper (s : PyStr) : PyStr := s.map upChar

/-- The Python test `"  " in s` used by the loop of `normalize_status`. -/
def hasDblSpace : PyStr → Bool
  | [] => false
  | [_] => false
  | a :: b :: rest => (a == 32 && b == 32) || hasDblSpace (b :: rest)

/-- One pass of Python `s.replace("  ", " ")`: occurrences are replaced left to
right without overlap, scanning resumes after each replacement.  SQLite
`REPLACE(s, '  ', ' ')` has the same semantics, so this function also models
one SQL `REPLACE` from `app.py`. -/
def replaceDbl : PyStr → PyStr
  | [] => []
  | [c] => [c]
  | a :: b :: rest =>
    if a == 32 && b == 32 then 32 :: replaceDbl rest
    else a :: replaceDbl (b :: rest)

/-- The `while "  " in s: s = s.replace("  ", " ")` loop of `normalize_status`,
run with explicit fuel.  Each iteration of the Python loop strictly shortens
the string, so `s.length + 1` iterations always reach the fixpoint; the fuel
only makes the function structurally recursive. -/
def collapseFuel : Nat → PyStr → PyStr
  | 0, s => s
  | fuel + 1, s => if hasDblSpace s then collapseFuel fuel (replaceDbl s) else s

/-- The whitespace-collapsing loop of `normalize_status` (fuel instantiated). -/
def collapseLoop (s : PyStr) : PyStr := collapseFuel (s.length + 1) s

/-- `normalize_status` from `app.py`: `(s or "").strip().upper()`, then the
loop replacing `"  "` by `" "` until no double space remains. -/
def normalize_status (s : PyStr) : PyStr := collapseLoop (pyUpper (pyStrip s))

/-- `normalize_tag` from `app.py`: `(x or "").strip().upper()`. -/
def normalize_tag (s : PyStr) : PyStr := pyUpper (pyStrip s)

/-- SQLite `TRIM(x)`: removes the space character (only) from both ends. -/
def sqlTrim (s : PyStr) : PyStr :=
  ((s.dropWhile (fun c => c == 32)).reverse.dropWhile (fun c => c == 32)).reverse

/-- The SQL expression
`REPLACE(REPLACE(UPPER(TRIM(status_pedido)), '  ', ' '), '  ', ' ')`
used by `listar_pedidos` (and the equipment reports) to "normalize" the stored
status inside the query. -/
def sqlStatusNorm (s : PyStr) : PyStr := replaceDbl (replaceDbl (pyUpper (sqlTrim s)))

/-- ASCII decimal digit test. -/
def isDigit (c : Nat) : Bool := 48 ≤ c && c ≤ 57

/-- Value of a big-endian list of ASCII digit code points. -/
def digitsVal (ds : PyStr) : Nat := ds.foldl (fun a d => a * 10 + (d - 48)) 0

/-- Raw decimal digits of `n`, most significant first, with explicit fuel
(`fuel ≥ n` suffices). -/
def natDigitsBEAux : Nat → Nat → List Nat
  | 0, _ => []
  | _ + 1, 0 => []
  | fuel + 1, n => natDigitsBEAux fuel (n / 10) ++ [n % 10]

/-- ASCII digits of `n`, most significant first, no leading zeros (except for
`0` itself), as printed by Python number formatting. -/
def natDigitsBE (n : Nat) : PyStr :=
  if n = 0 then [48] else (natDigitsBEAux n n).map (fun d => d + 48)

/-- Exactly two ASCII digits for a value below 100 (the `.2f` fraction). -/
def twoDigits (f : Nat) : PyStr := [48 + f / 10, 48 + f % 10]

/-- Thousands grouping of Python `f"{v:,.2f}"`: a comma (code 44) after every
three digits counted from the right.  The input is the reversed digit list. -/
def group3 : PyStr → PyStr
  | a :: b :: c :: d :: rest => a :: b :: c :: 44 :: group3 (d :: rest)
  | l => l

/-- Round a rational to the nearest integer, ties to even: the rounding Python
`format` applies to the value being printed with two decimals. -/
def roundHE (q : ℚ) : ℤ :=
  if q - ⌊q⌋ < 1 / 2 then ⌊q⌋
  else if 1 / 2 < q - ⌊q⌋ then ⌊q⌋ + 1
  else if ⌊q⌋ % 2 = 0 then ⌊q⌋ else ⌊q⌋ + 1

/-- Python `f"{value:,.2f}"` on a rational: sign, thousands-grouped integer
part, a dot (code 46), then exactly two fraction digits of the value rounded
to cents. -/
def fstringCommaF2 (q : ℚ) : PyStr :=
  let n : Nat := (roundHE (|q| * 100)).toNat
  (if q < 0 then [45] else [])
    ++ (group3 (natDigitsBE (n / 100)).reverse).reverse ++ 46 :: twoDigits (n % 100)

/-- Python `s.replace(a, b)` for one-character `a` and `b`. -/
def replCh (a b : Nat) (s : PyStr) : PyStr := s.map (fun c => if c == a then b else c)

/-- The net effect of the three one-character replaces of `format_currency_brl`
(comma and dot swapped); used only to state lemmas about them. -/
def swapc (c : Nat) : Nat := if c == 44 then 46 else if c == 46 then 44 else c

/-- `format_currency_brl` from `app.py`: `""` for `None` (and for values that
do not convert to float, which the `Option` models), otherwise `f"{v:,.2f}"`
followed by `replace(",", "X").replace(".", ",").replace("X", ".")`. -/
def format_currency_brl (v : Option ℚ) : PyStr :=
  match v with
  | none => []
  | some q => replCh 88 46 (replCh 46 44 (replCh 44 88 (fstringCommaF2 q)))

/-- Left-to-right non-overlapping removal of the substring `"R$"` (codes 82,
36), i.e. Python `s.replace("R$", "")`. -/
def removeRS : PyStr → PyStr
  | [] => []
  | [c] => [c]
  | a :: b :: rest =>
    if a == 82 && b == 36 then removeRS rest
    else a :: removeRS (b :: rest)

/-- The Python builtin `float(s)` on the decimal strings this system feeds it:
optional surrounding whitespace, optional sign, digits with at most one dot
and at least one digit.  (Exponents, `inf`/`nan` and digit underscores are
accepted by Python but never produced by the code paths under verification.)
Returns `none` where `float` raises `ValueError`. -/
def pyFloat (s0 : PyStr) : Option ℚ :=
  let s := pyStrip s0
  let sgn : ℚ := if s.head? = some 45 then -1 else 1
  let t := if s.head? = some 45 ∨ s.head? = some 43 then s.tail else s
  let ip := t.takeWhile isDigit
  let r1 := t.dropWhile isDigit
  if r1 = [] then
    if ip = [] then none else some (sgn * (digitsVal ip : ℚ))
  else if r1.head? = some 46 then
    let fp := r1.tail.takeWhile isDigit
    if r1.tail.dropWhile isDigit ≠ [] then none
    else if ip = [] ∧ fp = [] then none
    else some (sgn * ((digitsVal ip : ℚ) + (digitsVal fp : ℚ) / 10 ^ fp.length))
  else none

/-- `parse_brl_number` from `app.py`: `None` input and blank input give `None`;
otherwise strip, drop `"R$"` and spaces, drop thousands dots, turn the decimal
comma into a dot, and best-effort `float` (`None` on failure). -/
def parse_brl_number (v : Option PyStr) : Option ℚ :=
  match v with
  | none => none
  | some s0 =>
    let s1 := pyStrip s0
    if s1 = [] then none
    else
      let s2 := (removeRS s1).filter (fun c => !(c == 32))
      let s3 := (s2.filter (fun c => !(c == 46))).map (fun c => if c == 44 then 46 else c)
      pyFloat s3

/-- One row of the `pedidos` table.  Columns not read by any claim
(`data_pagamento`, `numero_nf`, `local`, `observacao`, `departamento`,
`entrega_financeiro`, `data_cadastro`) are omitted. -/
structure Pedido where
  nome_veiculo : PyStr
  tag : PyStr
  numero_sc : PyStr
  data_criacao_sc : Option ℤ
  numero_pc : PyStr
  descricao_itens : PyStr
  status_pedido : PyStr
  valor_pedido : Option ℚ
  nome_fornecedor : PyStr
  obra : PyStr
deriving DecidableEq

/-- The row predicate of the `listar_pedidos` WHERE clause: requested tags are
already normalized and non-empty, the requested status is already
`normalize_status`-ed; a row matches when `UPPER(TRIM(tag))` is in the tag
list (if any) and the double-`REPLACE` expression equals the requested status
(if any). -/
def listarMatches (tags : List PyStr) (status_norm : PyStr) (r : Pedido) : Bool :=
  (tags.isEmpty || tags.contains (pyUpper (sqlTrim r.tag)))
    && (status_norm.isEmpty || sqlStatusNorm r.status_pedido == status_norm)

/-- The row set `listar_pedidos` selects: raw `tags` request values are kept if
truthy after strip and normalized by `normalize_tag`; the raw status is
normalized by `normalize_status`; rows are filtered by `listarMatches`. -/
def listar_pedidos_rows (store : List Pedido) (rawTags : List PyStr) (rawStatus : PyStr) :
    List Pedido :=
  let tags := (rawTags.filter (fun t => !(pyStrip t).isEmpty)).map normalize_tag
  let status_norm := normalize_status rawStatus
  store.filter (listarMatches tags status_norm)

/-- The query parameters of a dashboard request.  For the two date parameters,
`none` means the parameter is absent, `some none` that it is present but blank
(blank after strip imposes no constraint), `some (some d)` that it carries a
valid date text denoting day `d`.  `extra` counts query parameters other than
the five filters (`len(request.args)` counts them too). -/
structure DashArgs where
  data_inicio : Option (Option ℤ)
  data_fim : Option (Option ℤ)
  obra : Option PyStr
  veiculo : Option PyStr
  tag : Option PyStr
  extra : Nat
deriving DecidableEq

/-- `len(request.args)` for a dashboard request. -/
def argCount (a : DashArgs) : Nat :=
  (if a.data_inicio.isSome then 1 else 0) + (if a.data_fim.isSome then 1 else 0)
    + (if a.obra.isSome then 1 else 0) + (if a.veiculo.isSome then 1 else 0)
    + (if a.tag.isSome then 1 else 0) + a.extra

/-- The resolved dashboard filters (`filtros` dict): date bounds as day
numbers (`none` = no clause added), text filters stripped. -/
structure DashFiltros where
  data_inicio : Option ℤ
  data_fim : Option ℤ
  obra : PyStr
  veiculo : PyStr
  tag : PyStr
deriving DecidableEq

/-- Filter resolution of `dashboard`: when `len(request.args) == 0` the
default last-30-days range `[hoje - 30, hoje]` is used, otherwise the request
values (blank meaning unconstrained). -/
def dashFiltros (hoje : ℤ) (a : DashArgs) : DashFiltros :=
  let usarPadrao := argCount a = 0
  { data_inicio := if usarPadrao then some (hoje - 30) else (a.data_inicio.getD none)
    data_fim := if usarPadrao then some hoje else (a.data_fim.getD none)
    obra := pyStrip (a.obra.getD [])
    veiculo := pyStrip (a.veiculo.getD [])
    tag := pyStrip (a.tag.getD []) }

/-- The WHERE clause built by `dashboard`: conjunction of the clauses added
for each non-blank filter.  Date clauses compare `date(data_criacao_sc)` to
the bound; a row whose stored date does not parse fails any date clause.
The tag clause is `NORM_TAG(tag) = normalize_tag(requested)`. -/
def dashMatches (f : DashFiltros) (r : Pedido) : Bool :=
  (match f.data_inicio with
    | none => true
    | some lo => match r.data_criacao_sc with
      | none => false
      | some d => decide (lo ≤ d))
  && (match f.data_fim with
    | none => true
    | some hi => match r.data_criacao_sc with
      | none => false
      | some d => decide (d ≤ hi))
  && (f.obra.isEmpty || r.obra == f.obra)
  && (f.veiculo.isEmpty || r.nome_veiculo == f.veiculo)
  && (f.tag.isEmpty || normalize_tag r.tag == normalize_tag f.tag)

/-- The row set the dashboard queries work on for a given request. -/
def dashboardRows (hoje : ℤ) (a : DashArgs) (store : List Pedido) : List Pedido :=
  store.filter (dashMatches (dashFiltros hoje a))

/-- Refinement definition following the words of claim C2 (not the source):
the requisition creation date lies in the inclusive range from 30 days before
today through today. -/
def specInLast30 (hoje : ℤ) (r : Pedido) : Bool :=
  match r.data_criacao_sc with
  | none => false
  | some d => decide (hoje - 30 ≤ d) && decide (d ≤ hoje)

/-- `COALESCE(SUM(valor_pedido), 0)` over a row set: `NULL` amounts count 0. -/
def sumVal (rows : List Pedido) : ℚ := (rows.map (fun r => r.valor_pedido.getD 0)).sum

/-- Ascending sort of a key list, as SQL `ORDER BY` (BINARY collation) and
Python `sorted` produce on the byte strings of this system. -/
def sortStrs (l : List PyStr) : List PyStr := List.insertionSort (· ≤ ·) l

/-- The distinct `NORM_STATUS(status_pedido)` keys of a row set, ascending:
the `GROUP BY NORM_STATUS(status_pedido) ORDER BY NORM_STATUS(status_pedido)`
key list of the dashboard by-status query. -/
def statusKeys (rows : List Pedido) : List PyStr :=
  sortStrs ((rows.map (fun r => normalize_status r.status_pedido)).dedup)

/-- `COUNT(*)` of the by-status group of canonical status `k`. -/
def countStatus (rows : List Pedido) (k : PyStr) : Nat :=
  (rows.filter (fun r => normalize_status r.status_pedido == k)).length

/-- `COALESCE(SUM(valor_pedido), 0)` of the by-status group of canonical
status `k`. -/
def sumStatus (rows : List Pedido) (k : PyStr) : ℚ :=
  sumVal (rows.filter (fun r => normalize_status r.status_pedido == k))

/-- One entry of the `por_status` list built by `dashboard` (the Python code
re-strips the already canonical SQL key when building the dict). -/
structure StatusGroup where
  status_pedido : PyStr
  qtd : Nat
  valor_total : ℚ
deriving DecidableEq

/-- The `por_status` list of `dashboard`: one group per distinct canonical
status, ascending, with the count and sum of its rows. -/
def porStatus (rows : List Pedido) : List StatusGroup :=
  (statusKeys rows).map (fun k => ⟨pyStrip k, countStatus rows k, sumStatus rows k⟩)

/-- The eight card variables of `dashboard`. -/
structure Cards where
  qtd_em_aberto : Nat
  valor_em_aberto : ℚ
  qtd_aguardando_pagamento : Nat
  valor_aguardando_pagamento : ℚ
  qtd_pago : Nat
  valor_pago : ℚ
  qtd_cancelado : Nat
  valor_cancelado : ℚ
deriving DecidableEq

/-- All card variables start at zero. -/
def cards0 : Cards := ⟨0, 0, 0, 0, 0, 0, 0, 0⟩

/-- One iteration of the `for r in por_status` card loop of `dashboard`:
`su = normalize_status(r["status_pedido"])` is compared against the four
hardcoded labels. -/
def cardsStep (c : Cards) (g : StatusGroup) : Cards :=
  if normalize_status g.status_pedido = toPyStr "EM ABERTO" then
    { c with qtd_em_aberto := g.qtd, valor_em_aberto := g.valor_total }
  else if normalize_status g.status_pedido = toPyStr "AGUARDANDO PAGAMENTO" then
    { c with qtd_aguardando_pagamento := g.qtd, valor_aguardando_pagamento := g.valor_total }
  else if normalize_status g.status_pedido = toPyStr "PAGO" then
    { c with qtd_pago := g.qtd, valor_pago := g.valor_total }
  else if normalize_status g.status_pedido = toPyStr "CANCELADO" then
    { c with qtd_cancelado := g.qtd, valor_cancelado := g.valor_total }
  else c

/-- The card values `dashboard` computes from a filtered row set. -/
def cardsOf (rows : List Pedido) : Cards := (porStatus rows).foldl cardsStep cards0

/-- Group key of the equipment reports: `(r["tag"] or "SEM TAG").strip()` —
the falsy check happens before the strip, so only a `None` or exactly-empty
tag is sent to the synthetic group. -/
def tagKey (r : Pedido) : PyStr :=
  pyStrip (if r.tag = [] then toPyStr "SEM TAG" else r.tag)

/-- The group keys of the `grupos` dict of the equipment reports. -/
def grupoKeys (rows : List Pedido) : List PyStr := (rows.map tagKey).dedup

/-- Total of one group: sum of the order values of its rows, `None` as 0. -/
def grupoTotal (rows : List Pedido) (k : PyStr) : ℚ :=
  sumVal (rows.filter (fun r => tagKey r == k))

/-- Equipment name shown for a group: from the first row seen for the key. -/
def grupoNome (rows : List Pedido) (k : PyStr) : PyStr :=
  match rows.find? (fun r => tagKey r == k) with
  | none => []
  | some r => pyStrip r.nome_veiculo

/-- `total_geral` of the equipment reports: accumulated over all rows. -/
def total_geral (rows : List Pedido) : ℚ := sumVal rows

/-- Rendering order of the PDF equipment report:
`sorted(grupos.items(), key=lambda x: x[0])`. -/
def gruposSorted (rows : List Pedido) : List PyStr := sortStrs (grupoKeys rows)

/-- The fields of the order entry form (`None` = field absent).  The date
field is modeled by its day number like the table column. -/
structure NovoForm where
  nome_veiculo : Option PyStr
  tag : Option PyStr
  status_pedido : Option PyStr
  numero_sc : Option PyStr
  data_criacao_sc : Option ℤ
  numero_pc : Option PyStr
  descricao_itens : Option PyStr
  valor_pedido : Option PyStr
  nome_fornecedor : Option PyStr
  obra : Option PyStr
deriving DecidableEq

/-- `novo_pedido` (POST) from `app.py`: normalize tag and status, strip the
other text fields, parse the amount; when the normalized tag or the stripped
item description is empty, flash a warning and insert nothing (`false`);
otherwise insert the row (`true`). -/
def novo_pedido (store : List Pedido) (f : NovoForm) : List Pedido × Bool :=
  let tag := normalize_tag (f.tag.getD [])
  let status := normalize_status (f.status_pedido.getD [])
  let desc := pyStrip (f.descricao_itens.getD [])
  if tag = [] ∨ desc = [] then (store, false)
  else
    (store ++ [{ nome_veiculo := pyStrip (f.nome_veiculo.getD [])
                 tag := tag
                 numero_sc := pyStrip (f.numero_sc.getD [])
                 data_criacao_sc := f.data_criacao_sc
                 numero_pc := pyStrip (f.numero_pc.getD [])
                 descricao_itens := desc
                 status_pedido := status
                 valor_pedido := parse_brl_number f.valor_pedido
                 nome_fornecedor := pyStrip (f.nome_fornecedor.getD [])
                 obra := pyStrip (f.obra.getD []) }], true)

/-- A cell value fed to `parse_valor_import`: `None`, a numeric cell, or a
text cell. -/
inductive XCell where
  | none : XCell
  | num : ℚ → XCell
  | str : PyStr → XCell
deriving DecidableEq

/-- `parse_valor_import` from `importar_planilha_ctc.py`: total — `None` and
blank text give `0.0`, numeric cells pass through, text is stripped, dots
removed, comma turned into dot and `float`-ed, with `0.0` on failure. -/
def parse_valor_import (v : XCell) : ℚ :=
  match v with
  | XCell.none => 0
  | XCell.num q => q
  | XCell.str v =>
    let s := pyStrip v
    if s = [] then 0
    else
      match pyFloat ((s.filter (fun c => !(c == 46))).map (fun c => if c == 44 then 46 else c)) with
      | some q => q
      | Option.none => 0

/-- A spreadsheet row: the cells as optional text (`none` = empty cell).
Numeric amount cells are covered by the `XCell.num` branch of
`parse_valor_import` in claim C9; the rows driving the import claims carry
text cells. -/
abbrev ImportRow := List (Option PyStr)

/-- Python truthiness of a cell: `None` and `""` are falsy. -/
def cellTruthy : Option PyStr → Bool
  | Option.none => false
  | some s => !s.isEmpty

/-- The `if not any(cols[:16]): continue` test of `importar`. -/
def rowBlank (r : ImportRow) : Bool := !((r.take 16).any cellTruthy)

/-- `cols[i] if len(cols) > i else ""` as a raw cell. -/
def colRaw (r : ImportRow) (i : Nat) : Option PyStr := (r.get? i).getD Option.none

/-- The helper `s(v)` of `importar`: `""` for `None`, else `str(v).strip()`. -/
def colS (r : ImportRow) (i : Nat) : PyStr :=
  match colRaw r i with
  | Option.none => []
  | some s => pyStrip s

/-- Split a string at every occurrence of a separator code point. -/
def splitOnChar (sep : Nat) : PyStr → List PyStr
  | [] => [[]]
  | c :: rest =>
    let ps := splitOnChar sep rest
    if c == sep then [] :: ps
    else match ps with
      | p :: tail => (c :: p) :: tail
      | [] => [[c]]

/-- All code points are ASCII digits. -/
def allDigits (l : PyStr) : Bool := l.all isDigit

/-- Day number of a proleptic Gregorian date (days since 1970-01-01), the
standard civil-from-days inverse used to model date strings by day numbers. -/
def daysFromCivil (y : ℤ) (m d : Nat) : ℤ :=
  let y2 : ℤ := if m ≤ 2 then y - 1 else y
  let era : ℤ := Int.fdiv y2 400
  let yoe : Nat := (y2 - era * 400).toNat
  let mp : Nat := if 2 < m then m - 3 else m + 9
  let doy : Nat := (153 * mp + 2) / 5 + d - 1
  let doe : Nat := yoe * 365 + yoe / 4 - yoe / 100 + doy
  era * 146097 + (doe : ℤ) - 719468

/-- A `Y-M-D` candidate (digit ranges checked; the day-in-month upper bound is
simplified to 31 — no claim reads imported dates). -/
def dateFromParts (y m d : Nat) : Option ℤ :=
  if 1 ≤ m ∧ m ≤ 12 ∧ 1 ≤ d ∧ d ≤ 31 then some (daysFromCivil (y : ℤ) m d) else none

/-- The `%Y-%m-%d` branch of `parse_data` composed with SQLite `date()`. -/
def importDayYMD (s : PyStr) : Option ℤ :=
  match splitOnChar 45 s with
  | [y, m, d] =>
    if allDigits y ∧ allDigits m ∧ allDigits d ∧ y.length = 4
        ∧ m ≠ [] ∧ m.length ≤ 2 ∧ d ≠ [] ∧ d.length ≤ 2 then
      dateFromParts (digitsVal y) (digitsVal m) (digitsVal d)
    else none
  | _ => none

/-- `parse_data` of `importar` composed with the day-number model of the date
column: `%d/%m/%Y` first, then `%Y-%m-%d`; anything else is stored as raw text
that SQLite `date()` does not parse (`none`). -/
def importDay (cell : Option PyStr) : Option ℤ :=
  match cell with
  | Option.none => none
  | some v =>
    let s := pyStrip v
    match splitOnChar 47 s with
    | [d, m, y] =>
      if allDigits d ∧ allDigits m ∧ allDigits y ∧ y.length = 4
          ∧ d ≠ [] ∧ d.length ≤ 2 ∧ m ≠ [] ∧ m.length ≤ 2 then
        dateFromParts (digitsVal y) (digitsVal m) (digitsVal d)
      else importDayYMD s
    | _ => importDayYMD s

/-- `ja_existe_pedido` from `importar_planilha_ctc.py`: `False` when both the
PO number and the requisition number are falsy; otherwise a lookup for a row
with exactly equal `numero_pc` and `numero_sc` (SQLite `=` on text is
case-sensitive byte equality). -/
def ja_existe_pedido (store : List Pedido) (numero_pc numero_sc : PyStr) : Bool :=
  if numero_pc = [] ∧ numero_sc = [] then false
  else store.any (fun p => p.numero_pc == numero_pc && p.numero_sc == numero_sc)

/-- The `pedidos` row `importar` builds from a spreadsheet row (fields kept by
the `Pedido` model; the importer always stores a number in `valor_pedido`). -/
def rowPedido (r : ImportRow) : Pedido :=
  { nome_veiculo := colS r 0
    tag := colS r 1
    descricao_itens := colS r 2
    data_criacao_sc := importDay (colRaw r 3)
    numero_sc := colS r 4
    numero_pc := colS r 5
    nome_fornecedor := colS r 6
    status_pedido := colS r 7
    valor_pedido := some (parse_valor_import
      (match colRaw r 10 with
        | Option.none => XCell.none
        | some s => XCell.str s))
    obra := colS r 14 }

/-- The mutable state of the import loop: the table plus the two counters. -/
structure ImportState where
  store : List Pedido
  inseridos : Nat
  pulados : Nat
deriving DecidableEq

/-- One iteration of the `importar` row loop: skip silently if the first 16
cells are all falsy; else skip (counting `pulados`) if `ja_existe_pedido`
fires on the stripped PC and SC; else insert and count `inseridos`.  The
cursor sees rows inserted earlier in the same run. -/
def importStep (st : ImportState) (r : ImportRow) : ImportState :=
  if rowBlank r then st
  else if ja_existe_pedido st.store (colS r 5) (colS r 4) then
    { st with pulados := st.pulados + 1 }
  else
    { st with store := st.store ++ [rowPedido r], inseridos := st.inseridos + 1 }

/-- The whole `importar` loop over the sheet rows, starting from an existing
table. -/
def importar (store0 : List Pedido) (rows : List ImportRow) : ImportState :=
  rows.foldl importStep ⟨store0, 0, 0⟩

/-- No whitespace at either end of a string (the shape of `strip` outputs). -/
def NoEdgeWS (s : PyStr) : Prop :=
  (∀ c, s.head? = some c → isWS c = false) ∧ (∀ c, s.getLast? = some c → isWS c = false)

/-- A row with every modeled column blank, for building concrete rows. -/
def basePedido : Pedido :=
  { nome_veiculo := []
    tag := []
    numero_sc := []
    data_criacao_sc := none
    numero_pc := []
    descricao_itens := []
    status_pedido := []
    valor_pedido := none
    nome_fornecedor := []
    obra := [] }

/-- A stored row whose status has an interior run of five spaces. -/
def rowSt5 : Pedido := { basePedido with status_pedido := toPyStr "EM     ABERTO" }

/-- A dashboard request with no filter parameter but one unrelated query
parameter. -/
def dashArgsStray : DashArgs := ⟨none, none, none, none, none, 1⟩

/-- A dashboard request with both date parameters present but blank. -/
def dashArgsBlank : DashArgs := ⟨some none, some none, none, none, none, 0⟩

/-- A stored row whose requisition date lies 60 days in the past of day 0. -/
def rowOld : Pedido := { basePedido with data_criacao_sc := some (-60) }

/-- A spreadsheet row whose 16 cells are all blank. -/
def blankRow : ImportRow := List.replicate 16 (some [])

/-- A spreadsheet row carrying SC number `SC1` and PO number `PC1`. -/
def rowPC1 : ImportRow :=
  [some (toPyStr "EQ1"), some (toPyStr "T1"), some (toPyStr "ITEM"), none,
    some (toPyStr "SC1"), some (toPyStr "PC1")]

/-- A stored row with PO number `PC1` and requisition number `SC1`. -/
def pedidoPC1 : Pedido :=
  { basePedido with numero_pc := toPyStr "PC1", numero_sc := toPyStr "SC1" }

/-- A stored row with a blank PO number and requisition number `SC1`. -/
def pedidoEmptyPC : Pedido := { basePedido with numero_sc := toPyStr "SC1" }

/-- A stored row whose tag is a single space (blank after trimming, but not
the empty string). -/
def rowSpaceTag : Pedido := { basePedido with tag := [32] }

/-- An entry form whose tag is whitespace only and whose item description is
present. -/
def formBlankTag : NovoForm :=
  ⟨none, some [32, 32], none, none, none, none, some (toPyStr "ITEM X"), none, none, none⟩

/-! ### String normalization lemmas -/

theorem upChar_idem (c : Nat) : upChar (upChar c) = upChar c := by
  simp only [upChar, Bool.and_eq_true, decide_eq_true_eq]
  split_ifs <;> omega

theorem upChar_eq_32 (c : Nat) : upChar c = 32 ↔ c = 32 := by
  simp only [upChar, Bool.and_eq_true, decide_eq_true_eq]
  split_ifs <;> omega

theorem isWS_upChar (c : Nat) : isWS (upChar c) = isWS c := by
  simp only [isWS, upChar]
  split_ifs with h
  · simp only [Bool.and_eq_true, decide_eq_true_eq] at h
    refine Bool.eq_iff_iff.mpr ?_
    simp only [Bool.or_eq_true, beq_iff_eq]
    omega
  · rfl

theorem head?_dropWhile (p : Nat → Bool) :
    ∀ (l : PyStr) (c : Nat), (l.dropWhile p).head? = some c → p c = false
  | [], c, h => by simp [List.dropWhile] at h
  | a :: l, c, h => by
    by_cases hp : p a
    · rw [List.dropWhile_cons, if_pos hp] at h
      exact head?_dropWhile p l c h
    · rw [List.dropWhile_cons, if_neg hp] at h
      simp only [List.head?_cons, Option.some.injEq] at h
      subst h
      simpa using hp

theorem dropWhile_eq_self_of_head (p : Nat → Bool) (l : PyStr)
    (h : ∀ c, l.head? = some c → p c = false) : l.dropWhile p = l := by
  cases l with
  | nil => rfl
  | cons a t =>
    rw [List.dropWhile_cons, if_neg]
    simp [h a rfl]

theorem getLast?_cons_ne {a : Nat} {l : PyStr} (h : l ≠ []) :
    (a :: l).getLast? = l.getLast? := by
  obtain ⟨b, t, rfl⟩ := List.exists_cons_of_ne_nil h
  exact List.getLast?_cons_cons

theorem getLast?_dropWhile (p : Nat → Bool) :
    ∀ l : PyStr, l.dropWhile p ≠ [] → (l.dropWhile p).getLast? = l.getLast?
  | [], h => by simp [List.dropWhile] at h
  | a :: t, h => by
    by_cases hp : p a
    · rw [List.dropWhile_cons, if_pos hp] at h ⊢
      rw [getLast?_dropWhile p t h]
      have ht : t ≠ [] := by
        intro he
        rw [he] at h
        simp [List.dropWhile] at h
      rw [getLast?_cons_ne ht]
    · rw [List.dropWhile_cons, if_neg hp]

theorem pyStrip_eq_self {s : PyStr} (h : NoEdgeWS s) : pyStrip s = s := by
  unfold pyStrip
  rw [dropWhile_eq_self_of_head isWS s h.1, dropWhile_eq_self_of_head isWS s.reverse,
    List.reverse_reverse]
  intro c hc
  rw [List.head?_reverse] at hc
  exact h.2 c hc

theorem noEdgeWS_pyStrip (s : PyStr) : NoEdgeWS (pyStrip s) := by
  constructor
  · intro c hc
    unfold pyStrip at hc
    rw [List.head?_reverse] at hc
    by_cases hX : (s.dropWhile isWS).reverse.dropWhile isWS = []
    · rw [hX] at hc
      simp at hc
    · rw [getLast?_dropWhile isWS _ hX, List.getLast?_reverse] at hc
      exact head?_dropWhile isWS _ c hc
  · intro c hc
    unfold pyStrip at hc
    rw [List.getLast?_reverse] at hc
    exact head?_dropWhile isWS _ c hc

theorem noEdgeWS_pyUpper {s : PyStr} (h : NoEdgeWS s) : NoEdgeWS (pyUpper s) := by
  constructor
  · intro c hc
    rw [pyUpper, List.head?_map] at hc
    cases hh : s.head? with
    | none => rw [hh] at hc; simp at hc
    | some a =>
      rw [hh] at hc
      simp only [Option.map_some', Option.some.injEq] at hc
      rw [← hc, isWS_upChar]
      exact h.1 a hh
  · intro c hc
    rw [pyUpper, List.getLast?_map] at hc
    cases hh : s.getLast? with
    | none => rw [hh] at hc; simp at hc
    | some a =>
      rw [hh] at hc
      simp only [Option.map_some', Option.some.injEq] at hc
      rw [← hc, isWS_upChar]
      exact h.2 a hh

theorem replaceDbl_eq_nil {s : PyStr} : replaceDbl s = [] ↔ s = [] := by
  cases s with
  | nil => simp [replaceDbl]
  | cons a t =>
    cases t with
    | nil => simp [replaceDbl]
    | cons b u => by_cases h : (a == 32 && b == 32) = true <;> simp [replaceDbl, h]

theorem head?_replaceDbl (s : PyStr) (h : ∀ c, s.head? = some c → isWS c = false) :
    ∀ c, (replaceDbl s).head? = some c → isWS c = false := by
  match s with
  | [] => simp [replaceDbl]
  | [a] => simpa [replaceDbl] using h
  | a :: b :: t =>
    by_cases hc : (a == 32 && b == 32) = true
    · exfalso
      simp only [Bool.and_eq_true, beq_iff_eq] at hc
      have := h a rfl
      rw [hc.1] at this
      simp [isWS] at this
    · intro c hhead
      rw [show replaceDbl (a :: b :: t) = a :: replaceDbl (b :: t) by
        simp [replaceDbl, hc]] at hhead
      simp only [List.head?_cons, Option.some.injEq] at hhead
      subst hhead
      exact h a rfl

theorem getLast?_replaceDbl :
    ∀ s : PyStr, (∀ c, s.getLast? = some c → isWS c = false) →
      ∀ c, (replaceDbl s).getLast? = some c → isWS c = false
  | [], h => by simp [replaceDbl]
  | [a], h => by simpa [replaceDbl] using h
  | a :: b :: t, h => by
    by_cases hc : (a == 32 && b == 32) = true
    · rw [show replaceDbl (a :: b :: t) = 32 :: replaceDbl t by simp [replaceDbl, hc]]
      by_cases ht : replaceDbl t = []
      · have ht' : t = [] := replaceDbl_eq_nil.mp ht
        subst ht'
        exfalso
        simp only [Bool.and_eq_true, beq_iff_eq] at hc
        have := h b (by rw [List.getLast?_cons_cons]; rfl)
        rw [hc.2] at this
        simp [isWS] at this
      · intro c hlast
        rw [getLast?_cons_ne ht] at hlast
        have h' : ∀ c, t.getLast? = some c → isWS c = false := by
          intro c hct
          apply h c
          have htne : t ≠ [] := by
            intro he
            rw [he] at hct
            simp at hct
          rw [List.getLast?_cons_cons, getLast?_cons_ne htne]
          exact hct
        exact getLast?_replaceDbl t h' c hlast
    · rw [show replaceDbl (a :: b :: t) = a :: replaceDbl (b :: t) by
        simp [replaceDbl, hc]]
      have hne : replaceDbl (b :: t) ≠ [] := by
        rw [Ne, replaceDbl_eq_nil]
        simp
      intro c hlast
      rw [getLast?_cons_ne hne] at hlast
      refine getLast?_replaceDbl (b :: t) ?_ c hlast
      intro c hct
      apply h c
      rw [List.getLast?_cons_cons]
      exact hct

theorem noEdgeWS_replaceDbl {s : PyStr} (h : NoEdgeWS s) : NoEdgeWS (replaceDbl s) :=
  ⟨head?_replaceDbl s h.1, getLast?_replaceDbl s h.2⟩

theorem noEdgeWS_collapseFuel : ∀ (fuel : Nat) {s : PyStr}, NoEdgeWS s →
    NoEdgeWS (collapseFuel fuel s)
  | 0, _, h => h
  | fuel + 1, s, h => by
    rw [collapseFuel]
    by_cases hd : hasDblSpace s
    · rw [if_pos hd]
      exact noEdgeWS_collapseFuel fuel (noEdgeWS_replaceDbl h)
    · rw [if_neg hd]
      exact h

theorem replaceDbl_length_le : ∀ s : PyStr, (replaceDbl s).length ≤ s.length
  | [] => by simp [replaceDbl]
  | [c] => by simp [replaceDbl]
  | a :: b :: t => by
    by_cases h : (a == 32 && b == 32) = true
    · rw [show replaceDbl (a :: b :: t) = 32 :: replaceDbl t by simp [replaceDbl, h]]
      have := replaceDbl_length_le t
      simp only [List.length_cons]
      omega
    · rw [show replaceDbl (a :: b :: t) = a :: replaceDbl (b :: t) by simp [replaceDbl, h]]
      have := replaceDbl_length_le (b :: t)
      simp only [List.length_cons] at this ⊢
      omega

theorem replaceDbl_length_lt : ∀ s : PyStr, hasDblSpace s = true →
    (replaceDbl s).length < s.length
  | [], h => by simp [hasDblSpace] at h
  | [c], h => by simp [hasDblSpace] at h
  | a :: b :: t, h => by
    by_cases hc : (a == 32 && b == 32) = true
    · rw [show replaceDbl (a :: b :: t) = 32 :: replaceDbl t by simp [replaceDbl, hc]]
      have := replaceDbl_length_le t
      simp only [List.length_cons]
      omega
    · rw [show replaceDbl (a :: b :: t) = a :: replaceDbl (b :: t) by simp [replaceDbl, hc]]
      have hrest : hasDblSpace (b :: t) = true := by
        rw [hasDblSpace] at h
        rcases Bool.or_eq_true_iff.mp h with h1 | h2
        · exact absurd h1 hc
        · exact h2
      have := replaceDbl_length_lt (b :: t) hrest
      simp only [List.length_cons] at this ⊢
      omega

theorem collapseFuel_fix {s : PyStr} (fuel : Nat) (h : hasDblSpace s = false) :
    collapseFuel fuel s = s := by
  cases fuel with
  | zero => rfl
  | succ n =>
    rw [collapseFuel, if_neg]
    simp [h]

theorem hasDbl_collapseFuel : ∀ (fuel : Nat) (s : PyStr), s.length < fuel →
    hasDblSpace (collapseFuel fuel s) = false
  | 0, s, h => by omega
  | fuel + 1, s, h => by
    rw [collapseFuel]
    by_cases hd : hasDblSpace s
    · rw [if_pos hd]
      exact hasDbl_collapseFuel fuel (replaceDbl s)
        (by have := replaceDbl_length_lt s hd; omega)
    · rw [if_neg hd]
      simpa using hd

theorem hasDbl_collapseLoop (s : PyStr) : hasDblSpace (collapseLoop s) = false :=
  hasDbl_collapseFuel (s.length + 1) s (by omega)

theorem collapseLoop_fix {s : PyStr} (h : hasDblSpace s = false) : collapseLoop s = s :=
  collapseFuel_fix (s.length + 1) h

theorem hasDbl_pyUpper : ∀ s : PyStr, hasDblSpace (pyUpper s) = hasDblSpace s
  | [] => rfl
  | [_] => rfl
  | a :: b :: t => by
    show hasDblSpace (upChar a :: upChar b :: List.map upChar t)
      = hasDblSpace (a :: b :: t)
    rw [hasDblSpace, hasDblSpace]
    have e1 : (upChar a == 32) = (a == 32) := by
      refine Bool.eq_iff_iff.mpr ?_
      simp only [beq_iff_eq]
      exact upChar_eq_32 a
    have e2 : (upChar b == 32) = (b == 32) := by
      refine Bool.eq_iff_iff.mpr ?_
      simp only [beq_iff_eq]
      exact upChar_eq_32 b
    rw [e1, e2]
    have := hasDbl_pyUpper (b :: t)
    rw [show (upChar b :: List.map upChar t) = pyUpper (b :: t) by rfl, this]

theorem replaceDbl_pyUpper : ∀ s : PyStr, replaceDbl (pyUpper s) = pyUpper (replaceDbl s)
  | [] => rfl
  | [_] => rfl
  | a :: b :: t => by
    show replaceDbl (upChar a :: upChar b :: List.map upChar t)
      = pyUpper (replaceDbl (a :: b :: t))
    have e1 : (upChar a == 32) = (a == 32) := by
      refine Bool.eq_iff_iff.mpr ?_
      simp only [beq_iff_eq]
      exact upChar_eq_32 a
    have e2 : (upChar b == 32) = (b == 32) := by
      refine Bool.eq_iff_iff.mpr ?_
      simp only [beq_iff_eq]
      exact upChar_eq_32 b
    by_cases hc : (a == 32 && b == 32) = true
    · rw [show replaceDbl (a :: b :: t) = 32 :: replaceDbl t by simp [replaceDbl, hc]]
      rw [show replaceDbl (upChar a :: upChar b :: List.map upChar t)
          = 32 :: replaceDbl (List.map upChar t) by
        simp only [replaceDbl, e1, e2]
        rw [if_pos hc]]
      rw [show List.map upChar t = pyUpper t by rfl, replaceDbl_pyUpper t]
      show _ = List.map upChar (32 :: replaceDbl t)
      rw [List.map_cons]
      rfl
    · rw [show replaceDbl (a :: b :: t) = a :: replaceDbl (b :: t) by simp [replaceDbl, hc]]
      rw [show replaceDbl (upChar a :: upChar b :: List.map upChar t)
          = upChar a :: replaceDbl (upChar b :: List.map upChar t) by
        simp only [replaceDbl, e1, e2]
        rw [if_neg hc]]
      rw [show (upChar b :: List.map upChar t) = pyUpper (b :: t) by rfl,
        replaceDbl_pyUpper (b :: t)]
      rfl

theorem collapseFuel_pyUpper : ∀ (fuel : Nat) (s : PyStr),
    collapseFuel fuel (pyUpper s) = pyUpper (collapseFuel fuel s)
  | 0, _ => rfl
  | fuel + 1, s => by
    rw [collapseFuel, collapseFuel, hasDbl_pyUpper s]
    by_cases hd : hasDblSpace s
    · rw [if_pos hd, if_pos hd, replaceDbl_pyUpper s, collapseFuel_pyUpper fuel]
    · rw [if_neg hd, if_neg hd]

theorem pyUpper_idem (s : PyStr) : pyUpper (pyUpper s) = pyUpper s := by
  unfold pyUpper
  rw [List.map_map]
  exact List.map_congr_left (fun c _ => upChar_idem c)

theorem pyUpper_length (s : PyStr) : (pyUpper s).length = s.length :=
  List.length_map s upChar

theorem noEdgeWS_normalize_status (s : PyStr) : NoEdgeWS (normalize_status s) :=
  noEdgeWS_collapseFuel _ (noEdgeWS_pyUpper (noEdgeWS_pyStrip s))

theorem pyStrip_normalize_status (s : PyStr) :
    pyStrip (normalize_status s) = normalize_status s :=
  pyStrip_eq_self (noEdgeWS_normalize_status s)

theorem hasDbl_normalize_status (s : PyStr) :
    hasDblSpace (normalize_status s) = false :=
  hasDbl_collapseLoop _

theorem pyUpper_normalize_status (s : PyStr) :
    pyUpper (normalize_status s) = normalize_status s := by
  unfold normalize_status collapseLoop
  rw [← collapseFuel_pyUpper, pyUpper_idem (pyStrip s), pyUpper_length]

theorem normalize_status_idem (s : PyStr) :
    normalize_status (normalize_status s) = normalize_status s := by
  conv_lhs => rw [normalize_status]
  rw [pyStrip_normalize_status, pyUpper_normalize_status]
  exact collapseLoop_fix (hasDbl_normalize_status s)

theorem normalize_tag_idem (s : PyStr) :
    normalize_tag (normalize_tag s) = normalize_tag s := by
  unfold normalize_tag
  rw [pyStrip_eq_self (noEdgeWS_pyUpper (noEdgeWS_pyStrip s)), pyUpper_idem]

/-! ### Digits, formatting and parsing lemmas -/

theorem mem_of_head? {l : PyStr} {c : Nat} (h : l.head? = some c) : c ∈ l := by
  cases l with
  | nil => simp at h
  | cons a t =>
    simp only [List.head?_cons, Option.some.injEq] at h
    subst h
    exact List.mem_cons_self a t

theorem natDigitsBEAux_val : ∀ fuel n : Nat, n ≤ fuel →
    (natDigitsBEAux fuel n).foldl (fun a x => a * 10 + x) 0 = n
  | 0, n, h => by
    have hn : n = 0 := by omega
    subst hn
    rfl
  | fuel + 1, 0, _ => rfl
  | fuel + 1, n + 1, h => by
    show ((natDigitsBEAux fuel ((n + 1) / 10)) ++ [(n + 1) % 10]).foldl
      (fun a x => a * 10 + x) 0 = n + 1
    rw [List.foldl_append]
    show (natDigitsBEAux fuel ((n + 1) / 10)).foldl (fun a x => a * 10 + x) 0 * 10
      + (n + 1) % 10 = n + 1
    rw [natDigitsBEAux_val fuel ((n + 1) / 10) (by omega)]
    omega

theorem digitsVal_natDigitsBE (n : Nat) : digitsVal (natDigitsBE n) = n := by
  by_cases h : n = 0
  · subst h
    rfl
  · rw [natDigitsBE, if_neg h, digitsVal, List.foldl_map]
    have he : (fun (a d : Nat) => a * 10 + (d + 48 - 48)) = fun a d => a * 10 + d := by
      funext a d
      omega
    rw [he]
    exact natDigitsBEAux_val n n le_rfl

theorem natDigitsBEAux_lt : ∀ fuel n : Nat, ∀ d ∈ natDigitsBEAux fuel n, d < 10
  | 0, n => by simp [natDigitsBEAux]
  | fuel + 1, 0 => by simp [natDigitsBEAux]
  | fuel + 1, n + 1 => by
    intro d hd
    rw [show natDigitsBEAux (fuel + 1) (n + 1)
        = natDigitsBEAux fuel ((n + 1) / 10) ++ [(n + 1) % 10] from rfl] at hd
    rcases List.mem_append.mp hd with h1 | h2
    · exact natDigitsBEAux_lt fuel ((n + 1) / 10) d h1
    · simp only [List.mem_singleton] at h2
      subst h2
      omega

theorem natDigitsBE_digits (n : Nat) : ∀ c ∈ natDigitsBE n, isDigit c = true := by
  intro c hc
  unfold natDigitsBE at hc
  by_cases h : n = 0
  · rw [if_pos h] at hc
    simp only [List.mem_singleton] at hc
    subst hc
    rfl
  · rw [if_neg h] at hc
    rcases List.mem_map.mp hc with ⟨d, hd, rfl⟩
    have := natDigitsBEAux_lt n n d hd
    simp only [isDigit, Bool.and_eq_true, decide_eq_true_eq]
    omega

theorem natDigitsBE_ne_nil (n : Nat) : natDigitsBE n ≠ [] := by
  unfold natDigitsBE
  by_cases h : n = 0
  · rw [if_pos h]
    simp
  · rw [if_neg h]
    obtain ⟨m, rfl⟩ : ∃ m, n = m + 1 := ⟨n - 1, by omega⟩
    rw [show natDigitsBEAux (m + 1) (m + 1)
        = natDigitsBEAux m ((m + 1) / 10) ++ [(m + 1) % 10] from rfl]
    simp

theorem twoDigits_digits (f : Nat) (h : f < 100) : ∀ c ∈ twoDigits f, isDigit c = true := by
  intro c hc
  simp only [twoDigits, List.mem_cons, List.mem_singleton] at hc
  have h1 : f / 10 ≤ 9 := by omega
  have h2 : f % 10 ≤ 9 := by omega
  simp only [isDigit, Bool.and_eq_true, decide_eq_true_eq]
  rcases hc with rfl | rfl | hfalse
  · omega
  · omega
  · exact absurd hfalse (List.not_mem_nil c)

theorem digitsVal_twoDigits (f : Nat) : digitsVal (twoDigits f) = f := by
  show (0 * 10 + (48 + f / 10 - 48)) * 10 + (48 + f % 10 - 48) = f
  omega

theorem mem_group3 : ∀ (l : PyStr) (c : Nat), c ∈ group3 l → c ∈ l ∨ c = 44
  | [], c, h => Or.inl h
  | [a], c, h => Or.inl h
  | [a, b], c, h => Or.inl h
  | [a, b, d], c, h => Or.inl h
  | a :: b :: d :: e :: rest, c, h => by
    rw [show group3 (a :: b :: d :: e :: rest)
        = a :: b :: d :: 44 :: group3 (e :: rest) from rfl] at h
    simp only [List.mem_cons] at h ⊢
    rcases h with rfl | rfl | rfl | rfl | h5
    · exact Or.inl (Or.inl rfl)
    · exact Or.inl (Or.inr (Or.inl rfl))
    · exact Or.inl (Or.inr (Or.inr (Or.inl rfl)))
    · exact Or.inr rfl
    · rcases mem_group3 (e :: rest) c h5 with h6 | h6
      · simp only [List.mem_cons] at h6
        rcases h6 with rfl | h7
        · exact Or.inl (Or.inr (Or.inr (Or.inr (Or.inl rfl))))
        · exact Or.inl (Or.inr (Or.inr (Or.inr (Or.inr h7))))
      · exact Or.inr h6

theorem swapc_digit (c : Nat) (h : isDigit c = true) : swapc c = c := by
  simp only [isDigit, Bool.and_eq_true, decide_eq_true_eq] at h
  simp only [swapc, beq_iff_eq]
  split_ifs <;> omega

theorem keep46_digit (c : Nat) (h : isDigit c = true) : (!(c == 46)) = true := by
  simp only [isDigit, Bool.and_eq_true, decide_eq_true_eq] at h
  simp only [Bool.not_eq_true', beq_eq_false_iff_ne, ne_eq]
  omega

theorem group3_unfilter : ∀ l : PyStr, (∀ c ∈ l, isDigit c = true) →
    ((group3 l).map swapc).filter (fun c => !(c == 46)) = l
  | [], _ => rfl
  | [a], h => by
    have ha := h a (by simp)
    simp [group3, swapc_digit a ha, List.filter_cons, keep46_digit a ha]
  | [a, b], h => by
    have ha := h a (by simp)
    have hb := h b (by simp)
    simp [group3, swapc_digit a ha, swapc_digit b hb, List.filter_cons,
      keep46_digit a ha, keep46_digit b hb]
  | [a, b, d], h => by
    have ha := h a (by simp)
    have hb := h b (by simp)
    have hd := h d (by simp)
    simp [group3, swapc_digit a ha, swapc_digit b hb, swapc_digit d hd, List.filter_cons,
      keep46_digit a ha, keep46_digit b hb, keep46_digit d hd]
  | a :: b :: d :: e :: rest, h => by
    have ha := h a (by simp)
    have hb := h b (by simp)
    have hd := h d (by simp)
    have hrest : ∀ c ∈ e :: rest, isDigit c = true := by
      intro c hc
      exact h c (by simp only [List.mem_cons] at hc ⊢; tauto)
    rw [show group3 (a :: b :: d :: e :: rest)
        = a :: b :: d :: 44 :: group3 (e :: rest) from rfl]
    simp only [List.map_cons, List.filter_cons, swapc_digit a ha, swapc_digit b hb,
      swapc_digit d hd, keep46_digit a ha, keep46_digit b hb, keep46_digit d hd]
    rw [show swapc 44 = 46 from rfl]
    simp only [show (!(46 == 46)) = false from rfl, Bool.false_eq_true, if_false, if_true]
    rw [group3_unfilter (e :: rest) hrest]

theorem grouped_digits_unfilter (l : PyStr) (h : ∀ c ∈ l, isDigit c = true) :
    (((group3 l.reverse).reverse.map swapc).filter (fun c => !(c == 46))) = l := by
  rw [List.map_reverse, List.filter_reverse]
  rw [group3_unfilter l.reverse (fun c hc => h c (List.mem_reverse.mp hc))]
  exact List.reverse_reverse l

theorem removeRS_eq_self : ∀ s : PyStr, (∀ c ∈ s, c ≠ 82) → removeRS s = s
  | [], _ => rfl
  | [c], _ => rfl
  | a :: b :: t, h => by
    have ha : a ≠ 82 := h a (by simp)
    have hcond : ¬((a == 82 && b == 36) = true) := by
      simp only [Bool.and_eq_true, beq_iff_eq]
      intro hx
      exact ha hx.1
    rw [show removeRS (a :: b :: t) = a :: removeRS (b :: t) by
      simp only [removeRS]; rw [if_neg hcond]]
    rw [removeRS_eq_self (b :: t) (fun c hc => h c (List.mem_cons_of_mem a hc))]

theorem pyStrip_eq_self_of_chars {s : PyStr} (h : ∀ c ∈ s, isWS c = false) :
    pyStrip s = s := by
  apply pyStrip_eq_self
  constructor
  · intro c hc
    exact h c (mem_of_head? hc)
  · intro c hc
    have : c ∈ s.reverse := mem_of_head? (by rw [List.head?_reverse]; exact hc)
    exact h c (List.mem_reverse.mp this)

theorem takeWhile_append_not (p : Nat → Bool) :
    ∀ l r : PyStr, (∀ c ∈ l, p c = true) → (∀ c, r.head? = some c → p c = false) →
      (l ++ r).takeWhile p = l ∧ (l ++ r).dropWhile p = r
  | [], r, _, hr => by
    cases r with
    | nil => exact ⟨rfl, rfl⟩
    | cons a t =>
      have := hr a rfl
      constructor
      · rw [List.nil_append, List.takeWhile_cons, if_neg (by simp [this])]
      · rw [List.nil_append, List.dropWhile_cons, if_neg (by simp [this])]
  | a :: l, r, hl, hr => by
    have ha := hl a (by simp)
    have ih := takeWhile_append_not p l r (fun c hc => hl c (List.mem_cons_of_mem a hc)) hr
    constructor
    · rw [List.cons_append, List.takeWhile_cons, if_pos (by simp [ha]), ih.1]
    · rw [List.cons_append, List.dropWhile_cons, if_pos (by simp [ha]), ih.2]

theorem takeWhile_all (p : Nat → Bool) (l : PyStr) (h : ∀ c ∈ l, p c = true) :
    l.takeWhile p = l ∧ l.dropWhile p = [] := by
  have := takeWhile_append_not p l [] h (by intro c hc; simp at hc)
  simpa using this

theorem replCh_swap (s : PyStr) (h : ∀ c ∈ s, c ≠ 88) :
    replCh 88 46 (replCh 46 44 (replCh 44 88 s)) = s.map swapc := by
  unfold replCh
  rw [List.map_map, List.map_map]
  refine List.map_congr_left ?_
  intro c hc
  have h88 : c ≠ 88 := h c hc
  by_cases h44 : c = 44
  · subst h44
    rfl
  · by_cases h46 : c = 46
    · subst h46
      rfl
    · show (fun x => if x == 88 then 46 else x)
        ((fun x => if x == 46 then 44 else x) (if c == 44 then 88 else c)) = swapc c
      simp only [swapc, beq_iff_eq, if_neg h44, if_neg h46, if_neg h88]

theorem roundHE_natCast (n : Nat) : roundHE ((n : ℚ)) = (n : ℤ) := by
  unfold roundHE
  rw [Int.floor_natCast]
  rw [if_pos]
  push_cast
  norm_num

theorem charclass_not_ws (c : Nat) (h : isDigit c = true ∨ c = 44 ∨ c = 46) :
    isWS c = false := by
  simp only [isDigit, Bool.and_eq_true, decide_eq_true_eq] at h
  simp only [isWS, Bool.or_eq_false_iff, beq_eq_false_iff_ne, ne_eq]
  omega

theorem charclass_ne82 (c : Nat) (h : isDigit c = true ∨ c = 44 ∨ c = 46) : c ≠ 82 := by
  simp only [isDigit, Bool.and_eq_true, decide_eq_true_eq] at h
  omega

theorem charclass_keep32 (c : Nat) (h : isDigit c = true ∨ c = 44 ∨ c = 46) :
    (!(c == 32)) = true := by
  simp only [isDigit, Bool.and_eq_true, decide_eq_true_eq] at h
  simp only [Bool.not_eq_true', beq_eq_false_iff_ne, ne_eq]
  omega

theorem fstring_nonneg_eq (v : ℚ) (hv : 0 ≤ v) (n : ℕ) (hn : v * 100 = (n : ℚ)) :
    fstringCommaF2 v
      = (group3 (natDigitsBE (n / 100)).reverse).reverse ++ 46 :: twoDigits (n % 100) := by
  simp only [fstringCommaF2]
  rw [abs_of_nonneg hv, hn, roundHE_natCast, Int.toNat_natCast,
    if_neg (not_lt.mpr hv), List.nil_append]

theorem swapped_shape_chars (n : ℕ) :
    ∀ c ∈ ((group3 (natDigitsBE (n / 100)).reverse).reverse.map swapc)
        ++ 44 :: twoDigits (n % 100),
      isDigit c = true ∨ c = 44 ∨ c = 46 := by
  intro c hc
  rcases List.mem_append.mp hc with h1 | h2
  · rcases List.mem_map.mp h1 with ⟨d, hd, rfl⟩
    rw [List.mem_reverse] at hd
    rcases mem_group3 _ d hd with h3 | h3
    · rw [List.mem_reverse] at h3
      have hdig := natDigitsBE_digits _ d h3
      rw [swapc_digit d hdig]
      exact Or.inl hdig
    · subst h3
      exact Or.inr (Or.inr rfl)
  · simp only [List.mem_cons] at h2
    rcases h2 with rfl | h3
    · exact Or.inr (Or.inl rfl)
    · exact Or.inl (twoDigits_digits _ (by omega) c h3)

theorem format_nonneg_eq (v : ℚ) (hv : 0 ≤ v) (n : ℕ) (hn : v * 100 = (n : ℚ)) :
    format_currency_brl (some v)
      = ((group3 (natDigitsBE (n / 100)).reverse).reverse.map swapc)
          ++ 44 :: twoDigits (n % 100) := by
  show replCh 88 46 (replCh 46 44 (replCh 44 88 (fstringCommaF2 v))) = _
  rw [fstring_nonneg_eq v hv n hn]
  rw [replCh_swap _ (by
    intro c hc
    rcases List.mem_append.mp hc with h1 | h2
    · rw [List.mem_reverse] at h1
      rcases mem_group3 _ c h1 with h3 | h3
      · rw [List.mem_reverse] at h3
        have := natDigitsBE_digits _ c h3
        simp only [isDigit, Bool.and_eq_true, decide_eq_true_eq] at this
        omega
      · omega
    · simp only [List.mem_cons] at h2
      rcases h2 with rfl | h3
      · omega
      · have := twoDigits_digits _ (by omega : n % 100 < 100) c h3
        simp only [isDigit, Bool.and_eq_true, decide_eq_true_eq] at this
        omega)]
  rw [List.map_append, List.map_cons]
  congr 1
  rw [show swapc 46 = 44 from rfl]
  congr 1
  have hm : List.map swapc (twoDigits (n % 100)) = List.map id (twoDigits (n % 100)) :=
    List.map_congr_left (fun c hc => swapc_digit c (twoDigits_digits _ (by omega) c hc))
  rw [hm, List.map_id]

theorem pyFloat_shape (ipd frac : PyStr) (hipd : ∀ c ∈ ipd, isDigit c = true)
    (hfrac : ∀ c ∈ frac, isDigit c = true) (hne : ipd ≠ []) :
    pyFloat (ipd ++ 46 :: frac)
      = some ((digitsVal ipd : ℚ) + (digitsVal frac : ℚ) / 10 ^ frac.length) := by
  have hchars : ∀ c ∈ ipd ++ 46 :: frac, isDigit c = true ∨ c = 44 ∨ c = 46 := by
    intro c hc
    rcases List.mem_append.mp hc with h1 | h2
    · exact Or.inl (hipd c h1)
    · simp only [List.mem_cons] at h2
      rcases h2 with rfl | h3
      · exact Or.inr (Or.inr rfl)
      · exact Or.inl (hfrac c h3)
  have hh45 : ¬((ipd ++ 46 :: frac).head? = some 45) := by
    intro h
    have h2 := hchars 45 (mem_of_head? h)
    rcases h2 with h3 | h3 | h3 <;> simp [isDigit] at h3
  have hh43 : ¬((ipd ++ 46 :: frac).head? = some 43) := by
    intro h
    have h2 := hchars 43 (mem_of_head? h)
    rcases h2 with h3 | h3 | h3 <;> simp [isDigit] at h3
  have htd := takeWhile_append_not isDigit ipd (46 :: frac) hipd (by
    intro c hcc
    simp only [List.head?_cons, Option.some.injEq] at hcc
    subst hcc
    rfl)
  have hfr := takeWhile_all isDigit frac hfrac
  have hsgn1 : (if (ipd ++ 46 :: frac).head? = some 45 then (-1 : ℚ) else 1) = 1 :=
    if_neg hh45
  have htife : (if (ipd ++ 46 :: frac).head? = some 45 ∨ (ipd ++ 46 :: frac).head? = some 43
      then (ipd ++ 46 :: frac).tail else ipd ++ 46 :: frac) = ipd ++ 46 :: frac :=
    if_neg (fun h => h.elim hh45 hh43)
  simp only [pyFloat]
  rw [pyStrip_eq_self_of_chars (fun c hc => charclass_not_ws c (hchars c hc))]
  rw [htife, hsgn1, htd.1, htd.2]
  rw [if_neg (by simp : ¬((46 :: frac : PyStr) = []))]
  rw [List.head?_cons, if_pos (rfl : (some 46 : Option Nat) = some 46), List.tail_cons,
    hfr.1, hfr.2]
  rw [if_neg (by simp : ¬(([] : PyStr) ≠ []))]
  rw [if_neg (fun h => hne h.1)]
  rw [one_mul]

theorem parse_format_roundtrip (v : ℚ) (hv : 0 ≤ v) (n : ℕ) (hn : v * 100 = (n : ℚ)) :
    parse_brl_number (some (format_currency_brl (some v))) = some v := by
  have hchars := swapped_shape_chars n
  have hfmt := format_nonneg_eq v hv n hn
  rw [hfmt]
  have hstrip : pyStrip (((group3 (natDigitsBE (n / 100)).reverse).reverse.map swapc)
      ++ 44 :: twoDigits (n % 100))
      = ((group3 (natDigitsBE (n / 100)).reverse).reverse.map swapc)
        ++ 44 :: twoDigits (n % 100) :=
    pyStrip_eq_self_of_chars (fun c hc => charclass_not_ws c (hchars c hc))
  have hrs := removeRS_eq_self _ (fun c hc => charclass_ne82 c (hchars c hc))
  have hf32 := List.filter_eq_self.mpr (fun c hc => charclass_keep32 c (hchars c hc))
  have hf46 : (((group3 (natDigitsBE (n / 100)).reverse).reverse.map swapc)
      ++ 44 :: twoDigits (n % 100)).filter (fun c => !(c == 46))
      = natDigitsBE (n / 100) ++ 44 :: twoDigits (n % 100) := by
    rw [List.filter_append]
    congr 1
    · exact grouped_digits_unfilter _ (natDigitsBE_digits _)
    · rw [List.filter_cons]
      rw [if_pos (by decide : (!((44 : Nat) == 46)) = true)]
      rw [List.filter_eq_self.mpr
        (fun c hc => keep46_digit c (twoDigits_digits _ (by omega) c hc))]
  have hmap44 : (natDigitsBE (n / 100) ++ 44 :: twoDigits (n % 100)).map
      (fun c => if c == 44 then 46 else c)
      = natDigitsBE (n / 100) ++ 46 :: twoDigits (n % 100) := by
    rw [List.map_append, List.map_cons]
    congr 1
    · have hm : (natDigitsBE (n / 100)).map (fun c => if c == 44 then 46 else c)
          = (natDigitsBE (n / 100)).map id := by
        refine List.map_congr_left ?_
        intro c hc
        have := natDigitsBE_digits _ c hc
        simp only [isDigit, Bool.and_eq_true, decide_eq_true_eq] at this
        simp only [id_eq]
        rw [if_neg (by simp only [beq_iff_eq]; omega)]
      rw [hm, List.map_id]
    · congr 1
      have hm : (twoDigits (n % 100)).map (fun c => if c == 44 then 46 else c)
          = (twoDigits (n % 100)).map id := by
        refine List.map_congr_left ?_
        intro c hc
        have := twoDigits_digits _ (by omega : n % 100 < 100) c hc
        simp only [isDigit, Bool.and_eq_true, decide_eq_true_eq] at this
        simp only [id_eq]
        rw [if_neg (by simp only [beq_iff_eq]; omega)]
      rw [hm, List.map_id]
  have hpf := pyFloat_shape (natDigitsBE (n / 100)) (twoDigits (n % 100))
    (natDigitsBE_digits _) (twoDigits_digits _ (by omega)) (natDigitsBE_ne_nil _)
  have harith : (digitsVal (natDigitsBE (n / 100)) : ℚ)
      + (digitsVal (twoDigits (n % 100)) : ℚ) / 10 ^ (twoDigits (n % 100)).length = v := by
    rw [digitsVal_natDigitsBE, digitsVal_twoDigits,
      show (twoDigits (n % 100)).length = 2 from rfl]
    have hv100 : v = (n : ℚ) / 100 := (eq_div_iff (by norm_num)).mpr hn
    rw [hv100, show ((10 : ℚ) ^ 2) = 100 by norm_num]
    rw [eq_div_iff (by norm_num : (100 : ℚ) ≠ 0), add_mul,
      div_mul_cancel₀ _ (by norm_num : (100 : ℚ) ≠ 0)]
    exact_mod_cast (by omega : n / 100 * 100 + n % 100 = n)
  simp only [parse_brl_number]
  rw [hstrip]
  rw [if_neg (by simp : ¬(((group3 (natDigitsBE (n / 100)).reverse).reverse.map swapc)
    ++ 44 :: twoDigits (n % 100) = []))]
  rw [hrs, hf32, hf46, hmap44, hpf, harith]

/-! ### Sorting, grouping and card lemmas -/

theorem sortStrs_perm (l : List PyStr) : (sortStrs l).Perm l := List.perm_insertionSort _ l

theorem sortStrs_nodup {l : List PyStr} (h : l.Nodup) : (sortStrs l).Nodup :=
  ((sortStrs_perm l).nodup_iff).mpr h

theorem mem_sortStrs {l : List PyStr} {k : PyStr} : k ∈ sortStrs l ↔ k ∈ l :=
  (sortStrs_perm l).mem_iff

theorem sortStrs_sorted (l : List PyStr) : List.Sorted (· ≤ ·) (sortStrs l) :=
  List.sorted_insertionSort _ l

theorem sum_ite_single {κ M : Type} [DecidableEq κ] [AddCommMonoid M] (c : κ) (v : M) :
    ∀ keys : List κ, keys.Nodup → c ∈ keys →
      (keys.map (fun k => if k = c then v else 0)).sum = v
  | [], _, hm => absurd hm (List.not_mem_nil c)
  | k :: keys, hnd, hm => by
    rcases List.mem_cons.mp hm with rfl | hm2
    · rw [List.map_cons, List.sum_cons, if_pos rfl]
      have hnotin : c ∉ keys := (List.nodup_cons.mp hnd).1
      have hz : (keys.map (fun x => if x = c then v else 0)).sum = 0 := by
        rw [List.sum_eq_zero]
        intro x hx
        rcases List.mem_map.mp hx with ⟨y, hy, rfl⟩
        rw [if_neg]
        intro he
        exact hnotin (he ▸ hy)
      rw [hz, add_zero]
    · have hk : k ≠ c := by
        intro he
        exact (List.nodup_cons.mp hnd).1 (he ▸ hm2)
      rw [List.map_cons, List.sum_cons, if_neg hk,
        sum_ite_single c v keys (List.nodup_cons.mp hnd).2 hm2, zero_add]

theorem sum_map_add {κ M : Type} [AddCommMonoid M] (f g : κ → M) :
    ∀ l : List κ, (l.map (fun k => f k + g k)).sum = (l.map f).sum + (l.map g).sum
  | [] => by simp
  | k :: l => by
    simp only [List.map_cons, List.sum_cons, sum_map_add f g l]
    abel

theorem sum_fibers {α M : Type} [AddCommMonoid M] (key : α → PyStr) (val : α → M) :
    ∀ (rows : List α) (keys : List PyStr), keys.Nodup → (∀ r ∈ rows, key r ∈ keys) →
      (keys.map (fun k => ((rows.filter (fun r => key r == k)).map val).sum)).sum
        = (rows.map val).sum
  | [], keys, _, _ => by
    rw [List.sum_eq_zero]
    · rfl
    · intro x hx
      rcases List.mem_map.mp hx with ⟨y, _, rfl⟩
      simp
  | r :: rs, keys, hnd, hcompl => by
    have hpoint : ∀ k ∈ keys,
        (((r :: rs).filter (fun x => key x == k)).map val).sum
          = (if k = key r then val r else 0)
            + ((rs.filter (fun x => key x == k)).map val).sum := by
      intro k _
      rw [List.filter_cons]
      by_cases hk : key r = k
      · rw [if_pos (by simp [hk] : (key r == k) = true), List.map_cons, List.sum_cons,
          if_pos hk.symm]
      · rw [if_neg (by simp [hk] : ¬((key r == k) = true)),
          if_neg (fun he => hk he.symm), zero_add]
    rw [List.map_congr_left hpoint, sum_map_add,
      sum_ite_single (key r) (val r) keys hnd (hcompl r (List.mem_cons_self r rs)),
      sum_fibers key val rs keys hnd (fun x hx => hcompl x (List.mem_cons_of_mem r hx)),
      List.map_cons, List.sum_cons]

theorem length_fibers {α : Type} (key : α → PyStr) :
    ∀ (rows : List α) (keys : List PyStr), keys.Nodup → (∀ r ∈ rows, key r ∈ keys) →
      (keys.map (fun k => (rows.filter (fun r => key r == k)).length)).sum
        = rows.length := by
  intro rows keys hnd hcompl
  have h := sum_fibers key (fun _ => (1 : ℕ)) rows keys hnd hcompl
  have h1 : ∀ l : List α, (l.map (fun _ => (1 : ℕ))).sum = l.length := by
    intro l
    induction l with
    | nil => rfl
    | cons x t ih => simp [ih, Nat.add_comm]
  rw [← h1 rows, ← h]
  refine congrArg List.sum (List.map_congr_left ?_)
  intro k _
  exact (h1 _).symm

theorem mem_grupoKeys {rows : List Pedido} {r : Pedido} (h : r ∈ rows) :
    tagKey r ∈ grupoKeys rows :=
  List.mem_dedup.mpr (List.mem_map.mpr ⟨r, h, rfl⟩)

theorem gruposSorted_nodup (rows : List Pedido) : (gruposSorted rows).Nodup :=
  sortStrs_nodup (List.nodup_dedup _)

theorem sum_gruposSorted (rows : List Pedido) :
    ((gruposSorted rows).map (grupoTotal rows)).sum = total_geral rows := by
  show ((gruposSorted rows).map
    (fun k => ((rows.filter (fun r => tagKey r == k)).map
      (fun r => r.valor_pedido.getD 0)).sum)).sum = _
  rw [sum_fibers tagKey (fun r => r.valor_pedido.getD 0) rows (gruposSorted rows)
    (gruposSorted_nodup rows)
    (fun r hr => mem_sortStrs.mpr (mem_grupoKeys hr))]
  rfl

theorem statusKey_canonical {rows : List Pedido} {k : PyStr} (h : k ∈ statusKeys rows) :
    normalize_status k = k ∧ pyStrip k = k := by
  rcases List.mem_map.mp (List.mem_dedup.mp (mem_sortStrs.mp h)) with ⟨r, _, rfl⟩
  exact ⟨normalize_status_idem _, pyStrip_normalize_status _⟩

theorem statusKeys_nodup (rows : List Pedido) : (statusKeys rows).Nodup :=
  sortStrs_nodup (List.nodup_dedup _)

theorem statusKeys_complete {rows : List Pedido} {r : Pedido} (h : r ∈ rows) :
    normalize_status r.status_pedido ∈ statusKeys rows :=
  mem_sortStrs.mpr (List.mem_dedup.mpr (List.mem_map.mpr ⟨r, h, rfl⟩))

theorem cardsFold_untouched (L : PyStr) (ext : Cards → Nat × ℚ)
    (hstep_ne : ∀ c g, normalize_status g.status_pedido ≠ L → ext (cardsStep c g) = ext c) :
    ∀ (gs : List StatusGroup) (c : Cards),
      (∀ g ∈ gs, normalize_status g.status_pedido ≠ L) →
      ext (gs.foldl cardsStep c) = ext c
  | [], _, _ => rfl
  | g :: gs, c, h => by
    rw [List.foldl_cons,
      cardsFold_untouched L ext hstep_ne gs _ (fun x hx => h x (List.mem_cons_of_mem g hx)),
      hstep_ne c g (h g (List.mem_cons_self g gs))]

theorem ext_cardsOf_aux (rows : List Pedido) (L : PyStr) (ext : Cards → Nat × ℚ)
    (hstep_ne : ∀ c g, normalize_status g.status_pedido ≠ L → ext (cardsStep c g) = ext c)
    (hstep_eq : ∀ c g, normalize_status g.status_pedido = L →
      ext (cardsStep c g) = (g.qtd, g.valor_total)) :
    ∀ (keys : List PyStr) (c : Cards), keys.Nodup →
      (∀ k ∈ keys, normalize_status (pyStrip k) = k) → L ∈ keys →
      ext ((keys.map (fun k =>
          (⟨pyStrip k, countStatus rows k, sumStatus rows k⟩ : StatusGroup))).foldl
        cardsStep c)
        = (countStatus rows L, sumStatus rows L)
  | [], _, _, _, hm => absurd hm (List.not_mem_nil L)
  | k :: keys, c, hnd, hcanon, hm => by
    rw [List.map_cons, List.foldl_cons]
    rcases List.mem_cons.mp hm with rfl | hm2
    · have hk := hcanon L (List.mem_cons_self L keys)
      rw [cardsFold_untouched L ext hstep_ne _ _ (by
        intro g hg
        rcases List.mem_map.mp hg with ⟨k2, hk2, rfl⟩
        show normalize_status (pyStrip k2) ≠ L
        rw [hcanon k2 (List.mem_cons_of_mem L hk2)]
        intro he
        exact (List.nodup_cons.mp hnd).1 (he ▸ hk2))]
      exact hstep_eq c _ hk
    · rw [ext_cardsOf_aux rows L ext hstep_ne hstep_eq keys _ (List.nodup_cons.mp hnd).2
        (fun x hx => hcanon x (List.mem_cons_of_mem k hx)) hm2]

theorem ext_cardsOf (rows : List Pedido) (L : PyStr) (ext : Cards → Nat × ℚ)
    (hstep_ne : ∀ c g, normalize_status g.status_pedido ≠ L → ext (cardsStep c g) = ext c)
    (hstep_eq : ∀ c g, normalize_status g.status_pedido = L →
      ext (cardsStep c g) = (g.qtd, g.valor_total))
    (hext0 : ext cards0 = (0, 0)) :
    ext (cardsOf rows) = (countStatus rows L, sumStatus rows L) := by
  by_cases hmem : L ∈ statusKeys rows
  · exact ext_cardsOf_aux rows L ext hstep_ne hstep_eq (statusKeys rows) cards0
      (statusKeys_nodup rows)
      (fun k hk => by
        have h := statusKey_canonical hk
        rw [h.2, h.1]) hmem
  · have hfilter : rows.filter (fun r => normalize_status r.status_pedido == L) = [] := by
      rw [List.filter_eq_nil_iff]
      intro r hr hbeq
      rw [beq_iff_eq] at hbeq
      exact hmem (hbeq ▸ statusKeys_complete hr)
    have hcount : countStatus rows L = 0 := by
      rw [countStatus, hfilter]
      rfl
    have hsum : sumStatus rows L = 0 := by
      rw [sumStatus, hfilter]
      rfl
    rw [hcount, hsum]
    rw [show cardsOf rows = ((statusKeys rows).map (fun k =>
        (⟨pyStrip k, countStatus rows k, sumStatus rows k⟩ : StatusGroup))).foldl
        cardsStep cards0 from rfl]
    rw [cardsFold_untouched L ext hstep_ne _ _ (by
      intro g hg
      rcases List.mem_map.mp hg with ⟨k2, hk2, rfl⟩
      show normalize_status (pyStrip k2) ≠ L
      have h := statusKey_canonical hk2
      rw [h.2, h.1]
      intro he
      exact hmem (he ▸ hk2))]
    exact hext0

/-! ### Import, dashboard and form helper lemmas -/

theorem ja_existe_iff (store : List Pedido) (pc sc : PyStr) :
    ja_existe_pedido store pc sc = true
      ↔ ((pc ≠ [] ∨ sc ≠ []) ∧ ∃ p ∈ store, p.numero_pc = pc ∧ p.numero_sc = sc) := by
  unfold ja_existe_pedido
  by_cases h : pc = [] ∧ sc = []
  · rw [if_pos h]
    simp only [Bool.false_eq_true, false_iff]
    intro hcon
    rcases hcon.1 with h1 | h1
    · exact h1 h.1
    · exact h1 h.2
  · rw [if_neg h]
    rw [List.any_eq_true]
    constructor
    · rintro ⟨p, hp, hmatch⟩
      simp only [Bool.and_eq_true, beq_iff_eq] at hmatch
      exact ⟨not_and_or.mp h, ⟨p, hp, hmatch⟩⟩
    · rintro ⟨-, p, hp, h1, h2⟩
      exact ⟨p, hp, by simp [h1, h2]⟩

theorem argCount_zero {a : DashArgs} (h : argCount a = 0) :
    a.data_inicio = none ∧ a.data_fim = none ∧ a.obra = none ∧ a.veiculo = none
      ∧ a.tag = none := by
  unfold argCount at h
  refine ⟨?_, ?_, ?_, ?_, ?_⟩
  · cases hx : a.data_inicio with
    | none => rfl
    | some v =>
      rw [hx] at h
      simp only [Option.isSome_some, if_true] at h
      omega
  · cases hx : a.data_fim with
    | none => rfl
    | some v =>
      rw [hx] at h
      simp only [Option.isSome_some, if_true] at h
      omega
  · cases hx : a.obra with
    | none => rfl
    | some v =>
      rw [hx] at h
      simp only [Option.isSome_some, if_true] at h
      omega
  · cases hx : a.veiculo with
    | none => rfl
    | some v =>
      rw [hx] at h
      simp only [Option.isSome_some, if_true] at h
      omega
  · cases hx : a.tag with
    | none => rfl
    | some v =>
      rw [hx] at h
      simp only [Option.isSome_some, if_true] at h
      omega

theorem dashFiltros_zero (hoje : ℤ) {a : DashArgs} (h : argCount a = 0) :
    dashFiltros hoje a = ⟨some (hoje - 30), some hoje, [], [], []⟩ := by
  obtain ⟨h1, h2, h3, h4, h5⟩ := argCount_zero h
  simp only [dashFiltros]
  rw [if_pos h, if_pos h, h3, h4, h5]
  rfl

theorem dashFiltros_nonzero (hoje : ℤ) {a : DashArgs} (h : ¬(argCount a = 0)) :
    dashFiltros hoje a = ⟨a.data_inicio.getD none, a.data_fim.getD none,
      pyStrip (a.obra.getD []), pyStrip (a.veiculo.getD []), pyStrip (a.tag.getD [])⟩ := by
  simp only [dashFiltros]
  rw [if_neg h, if_neg h]

theorem dashMatches_zero (hoje : ℤ) (r : Pedido) :
    dashMatches ⟨some (hoje - 30), some hoje, [], [], []⟩ r = specInLast30 hoje r := by
  unfold dashMatches specInLast30
  cases hd : r.data_criacao_sc with
  | none => simp
  | some d => simp

theorem dashMatches_blank (r : Pedido) :
    dashMatches ⟨none, none, [], [], []⟩ r = true := by
  simp [dashMatches]

theorem normalize_tag_nil_iff (s : PyStr) : normalize_tag s = [] ↔ pyStrip s = [] := by
  unfold normalize_tag pyUpper
  exact List.map_eq_nil_iff

/-! ### Claim theorems -/

/-- Claim C1 (code bug evidence): the stored status `"EM     ABERTO"` (an interior run of
five spaces) has canonical form `"EM ABERTO"`, but the double-`REPLACE` SQL expression of
`listar_pedidos` only reduces the run to two spaces, so the row does not match a status
filter for its own canonical form — the canonical-comparison rule of the claim is violated
by the code. -/
theorem C1_status_filter_misses_canonical_row :
    normalize_status (toPyStr "EM     ABERTO") = toPyStr "EM ABERTO"
      ∧ sqlStatusNorm (toPyStr "EM     ABERTO") = toPyStr "EM  ABERTO"
      ∧ rowSt5.status_pedido = toPyStr "EM     ABERTO"
      ∧ listar_pedidos_rows [rowSt5] [] (toPyStr "EM ABERTO") = [] := by
  refine ⟨by decide, by decide, by decide, by decide⟩

/-- Claim C2 counterexample: a request carrying zero filter parameters but one unrelated
query parameter is not restricted to the last 30 days — the out-of-range row (60 days old)
is returned, though the claim requires the implicit default range whenever zero filter
parameters are carried. -/
theorem C2_counterexample :
    dashArgsStray.data_inicio = none ∧ dashArgsStray.data_fim = none
      ∧ dashArgsStray.obra = none ∧ dashArgsStray.veiculo = none ∧ dashArgsStray.tag = none
      ∧ rowOld.data_criacao_sc = some (-60)
      ∧ specInLast30 0 rowOld = false
      ∧ dashboardRows 0 dashArgsStray [rowOld] = [rowOld] := by
  refine ⟨rfl, rfl, rfl, rfl, rfl, rfl, by decide, by decide⟩

/-- Claim C2 (amended): the implicit last-30-days default applies exactly when the request
carries zero query parameters of any kind (`len(request.args) == 0`), not merely zero
filter parameters; with at least one parameter present the date bounds are exactly the
requested ones (absent or blank meaning unbounded), and when every filter is absent or
blank the whole store is returned. -/
theorem C2_amended_default_range (hoje : ℤ) (a : DashArgs) (store : List Pedido) :
    (argCount a = 0 → dashboardRows hoje a store = store.filter (specInLast30 hoje))
      ∧ (argCount a ≠ 0 →
          (dashFiltros hoje a).data_inicio = a.data_inicio.getD none
            ∧ (dashFiltros hoje a).data_fim = a.data_fim.getD none)
      ∧ (argCount a ≠ 0 → a.data_inicio.getD none = none → a.data_fim.getD none = none →
          pyStrip (a.obra.getD []) = [] → pyStrip (a.veiculo.getD []) = [] →
          pyStrip (a.tag.getD []) = [] → dashboardRows hoje a store = store) := by
    refine ⟨?_, ?_, ?_⟩
    · intro h
      rw [dashboardRows, dashFiltros_zero hoje h]
      exact List.filter_congr (fun r _ => dashMatches_zero hoje r)
    · intro h
      rw [dashFiltros_nonzero hoje h]
      exact ⟨rfl, rfl⟩
    · intro h h1 h2 h3 h4 h5
      rw [dashboardRows, dashFiltros_nonzero hoje h, h1, h2, h3, h4, h5]
      exact List.filter_eq_self.mpr (fun r _ => dashMatches_blank r)

/-- Witness for C2: a request with both date parameters present but blank (and no other
parameter) returns the whole store, including a row 60 days old. -/
theorem C2_witness :
    argCount dashArgsBlank ≠ 0 ∧ dashboardRows 0 dashArgsBlank [rowOld] = [rowOld] :=
  ⟨by decide,
    (C2_amended_default_range 0 dashArgsBlank [rowOld]).2.2 (by decide) (by decide)
      (by decide) (by decide) (by decide) (by decide)⟩

/-- Claim C3 counterexample: a fully blank spreadsheet row has blank PO and SC numbers,
yet `importar` does not insert it (the inserted count stays 0 and the table stays empty),
contradicting the claim that a row with blank PO and SC numbers is always inserted. -/
theorem C3_counterexample :
    colS blankRow 5 = [] ∧ colS blankRow 4 = []
      ∧ (importar [] [blankRow]).inseridos = 0
      ∧ (importar [] [blankRow]).store = [] := by
  refine ⟨by decide, by decide, by decide, by decide⟩

/-- Claim C3 (amended): for every incoming import row with at least one truthy cell among
its first 16 columns, the row is skipped (table and inserted count unchanged) iff some
existing row matches the incoming (PO, SC) pair exactly and the pair is not both-blank;
an incoming row of that kind whose PO and SC are both blank is always inserted. -/
theorem C3_amended_duplicate_rule (st : ImportState) (r : ImportRow)
    (h : rowBlank r = false) :
    (((importStep st r).store = st.store ∧ (importStep st r).inseridos = st.inseridos)
        ↔ ((colS r 5 ≠ [] ∨ colS r 4 ≠ [])
            ∧ ∃ p ∈ st.store, p.numero_pc = colS r 5 ∧ p.numero_sc = colS r 4))
      ∧ (colS r 5 = [] → colS r 4 = [] →
          (importStep st r).store = st.store ++ [rowPedido r]
            ∧ (importStep st r).inseridos = st.inseridos + 1) := by
  constructor
  · unfold importStep
    rw [if_neg (by simp [h])]
    by_cases hdup : ja_existe_pedido st.store (colS r 5) (colS r 4) = true
    · rw [if_pos hdup]
      exact iff_of_true ⟨rfl, rfl⟩ ((ja_existe_iff _ _ _).mp hdup)
    · rw [if_neg hdup]
      refine iff_of_false ?_ ?_
      · intro hcon
        have hlen := congrArg List.length hcon.1
        simp at hlen
      · intro hcon
        exact hdup ((ja_existe_iff _ _ _).mpr hcon)
  · intro h5 h4
    unfold importStep
    rw [if_neg (by simp [h])]
    rw [if_neg (by rw [ja_existe_pedido, if_pos ⟨h5, h4⟩]; simp)]
    exact ⟨rfl, rfl⟩

/-- Witness for C3: an incoming row with the pair (PC1, SC1) against a store already
holding that pair is characterized by the amended rule. -/
theorem C3_witness :
    rowBlank rowPC1 = false
      ∧ (((importStep ⟨[pedidoPC1], 0, 0⟩ rowPC1).store = [pedidoPC1]
            ∧ (importStep ⟨[pedidoPC1], 0, 0⟩ rowPC1).inseridos = 0)
          ↔ ((colS rowPC1 5 ≠ [] ∨ colS rowPC1 4 ≠ [])
              ∧ ∃ p ∈ [pedidoPC1], p.numero_pc = colS rowPC1 5
                  ∧ p.numero_sc = colS rowPC1 4)) :=
  ⟨by decide, (C3_amended_duplicate_rule ⟨[pedidoPC1], 0, 0⟩ rowPC1 (by decide)).1⟩

/-- The by-status group counts sum to the overall row count. -/
theorem porStatus_qtd_sum (rows : List Pedido) :
    ((porStatus rows).map (fun g => g.qtd)).sum = rows.length := by
  unfold porStatus
  rw [List.map_map]
  have h := length_fibers (fun r => normalize_status r.status_pedido) rows
    (statusKeys rows) (statusKeys_nodup rows) (fun r hr => statusKeys_complete hr)
  have hfun : ∀ k ∈ statusKeys rows,
      ((fun g => g.qtd) ∘ fun k =>
        (⟨pyStrip k, countStatus rows k, sumStatus rows k⟩ : StatusGroup)) k
        = (rows.filter (fun r => normalize_status r.status_pedido == k)).length :=
    fun k _ => rfl
  rw [List.map_congr_left hfun]
  exact h

/-- The by-status group sums add up to the overall value sum. -/
theorem porStatus_valor_sum (rows : List Pedido) :
    ((porStatus rows).map (fun g => g.valor_total)).sum = sumVal rows := by
  unfold porStatus
  rw [List.map_map]
  have h := sum_fibers (fun r => normalize_status r.status_pedido)
    (fun r => r.valor_pedido.getD 0) rows (statusKeys rows)
    (statusKeys_nodup rows) (fun r hr => statusKeys_complete hr)
  have hfun : ∀ k ∈ statusKeys rows,
      ((fun g => g.valor_total) ∘ fun k =>
        (⟨pyStrip k, countStatus rows k, sumStatus rows k⟩ : StatusGroup)) k
        = ((rows.filter (fun r =>
            normalize_status r.status_pedido == k)).map (fun r => r.valor_pedido.getD 0)).sum :=
    fun k _ => rfl
  rw [List.map_congr_left hfun]
  exact h

/-- The EM ABERTO card. -/
theorem cards_em_aberto (rows : List Pedido) :
    ((cardsOf rows).qtd_em_aberto, (cardsOf rows).valor_em_aberto)
      = (countStatus rows (toPyStr "EM ABERTO"), sumStatus rows (toPyStr "EM ABERTO")) :=
  ext_cardsOf rows (toPyStr "EM ABERTO")
    (fun c => (c.qtd_em_aberto, c.valor_em_aberto))
    (by
      intro c g hne
      unfold cardsStep
      split_ifs <;> first | rfl | exact absurd (by assumption) hne)
    (by
      intro c g heq
      unfold cardsStep
      rw [heq, if_pos rfl])
    rfl

/-- The AGUARDANDO PAGAMENTO card. -/
theorem cards_aguardando (rows : List Pedido) :
    ((cardsOf rows).qtd_aguardando_pagamento, (cardsOf rows).valor_aguardando_pagamento)
      = (countStatus rows (toPyStr "AGUARDANDO PAGAMENTO"),
          sumStatus rows (toPyStr "AGUARDANDO PAGAMENTO")) :=
  ext_cardsOf rows (toPyStr "AGUARDANDO PAGAMENTO")
    (fun c => (c.qtd_aguardando_pagamento, c.valor_aguardando_pagamento))
    (by
      intro c g hne
      unfold cardsStep
      split_ifs <;> first | rfl | exact absurd (by assumption) hne)
    (by
      intro c g heq
      unfold cardsStep
      rw [heq, if_neg (by decide), if_pos rfl])
    rfl

/-- The PAGO card. -/
theorem cards_pago (rows : List Pedido) :
    ((cardsOf rows).qtd_pago, (cardsOf rows).valor_pago)
      = (countStatus rows (toPyStr "PAGO"), sumStatus rows (toPyStr "PAGO")) :=
  ext_cardsOf rows (toPyStr "PAGO")
    (fun c => (c.qtd_pago, c.valor_pago))
    (by
      intro c g hne
      unfold cardsStep
      split_ifs <;> first | rfl | exact absurd (by assumption) hne)
    (by
      intro c g heq
      unfold cardsStep
      rw [heq, if_neg (by decide), if_neg (by decide), if_pos rfl])
    rfl

/-- The CANCELADO card. -/
theorem cards_cancelado (rows : List Pedido) :
    ((cardsOf rows).qtd_cancelado, (cardsOf rows).valor_cancelado)
      = (countStatus rows (toPyStr "CANCELADO"), sumStatus rows (toPyStr "CANCELADO")) :=
  ext_cardsOf rows (toPyStr "CANCELADO")
    (fun c => (c.qtd_cancelado, c.valor_cancelado))
    (by
      intro c g hne
      unfold cardsStep
      split_ifs <;> first | rfl | exact absurd (by assumption) hne)
    (by
      intro c g heq
      unfold cardsStep
      rw [heq, if_neg (by decide), if_neg (by decide), if_neg (by decide), if_pos rfl])
    rfl

/-- Claim C4: the four dashboard cards are exactly the by-status groups with the
canonical labels EM ABERTO, AGUARDANDO PAGAMENTO, PAGO and CANCELADO — each card equals
the count and value sum of the rows with that canonical status (zero when no row has it)
— while the overall count and sum totals cover every row, including rows whose canonical
status is outside the four labels. -/
theorem C4_card_metrics (rows : List Pedido) :
    (cardsOf rows).qtd_em_aberto = countStatus rows (toPyStr "EM ABERTO")
      ∧ (cardsOf rows).valor_em_aberto = sumStatus rows (toPyStr "EM ABERTO")
      ∧ (cardsOf rows).qtd_aguardando_pagamento
          = countStatus rows (toPyStr "AGUARDANDO PAGAMENTO")
      ∧ (cardsOf rows).valor_aguardando_pagamento
          = sumStatus rows (toPyStr "AGUARDANDO PAGAMENTO")
      ∧ (cardsOf rows).qtd_pago = countStatus rows (toPyStr "PAGO")
      ∧ (cardsOf rows).valor_pago = sumStatus rows (toPyStr "PAGO")
      ∧ (cardsOf rows).qtd_cancelado = countStatus rows (toPyStr "CANCELADO")
      ∧ (cardsOf rows).valor_cancelado = sumStatus rows (toPyStr "CANCELADO")
      ∧ ((porStatus rows).map (fun g => g.qtd)).sum = rows.length
      ∧ ((porStatus rows).map (fun g => g.valor_total)).sum = sumVal rows :=
  ⟨congrArg Prod.fst (cards_em_aberto rows), congrArg Prod.snd (cards_em_aberto rows),
    congrArg Prod.fst (cards_aguardando rows), congrArg Prod.snd (cards_aguardando rows),
    congrArg Prod.fst (cards_pago rows), congrArg Prod.snd (cards_pago rows),
    congrArg Prod.fst (cards_cancelado rows), congrArg Prod.snd (cards_cancelado rows),
    porStatus_qtd_sum rows, porStatus_valor_sum rows⟩

/-- Witness for C4: the card equalities at a concrete one-row set. -/
theorem C4_witness :
    (cardsOf [pedidoPC1]).qtd_pago = countStatus [pedidoPC1] (toPyStr "PAGO") :=
  (C4_card_metrics [pedidoPC1]).2.2.2.2.1

/-- Claim C5 counterexample: a row whose tag is a single space is blank after trimming,
yet it is grouped under the empty-string key, not under the synthetic `"SEM TAG"` group —
the falsy check of the code runs before the strip. -/
theorem C5_counterexample :
    rowSpaceTag.tag = [32] ∧ pyStrip rowSpaceTag.tag = []
      ∧ tagKey rowSpaceTag = [] ∧ tagKey rowSpaceTag ≠ toPyStr "SEM TAG"
      ∧ grupoKeys [rowSpaceTag] = [[]] := by
  refine ⟨rfl, by decide, by decide, by decide, by decide⟩

/-- Claim C5 (amended): in the grouped equipment report, rows whose tag is absent or the
empty string go to the synthetic `"SEM TAG"` group and every other row is grouped by its
trimmed tag (so a whitespace-only tag groups under the empty string); every row lands in
one of the rendered groups, the PDF renders groups in ascending key order, and the grand
total equals the sum of the per-group totals, which equals the sum of all row values. -/
theorem C5_amended_grouped_report (rows : List Pedido) :
    (∀ r ∈ rows, r.tag = [] → tagKey r = toPyStr "SEM TAG")
      ∧ (∀ r ∈ rows, r.tag ≠ [] → tagKey r = pyStrip r.tag)
      ∧ (∀ r ∈ rows, tagKey r ∈ gruposSorted rows)
      ∧ List.Sorted (· ≤ ·) (gruposSorted rows)
      ∧ ((gruposSorted rows).map (grupoTotal rows)).sum = total_geral rows
      ∧ total_geral rows = sumVal rows := by
  refine ⟨?_, ?_, ?_, sortStrs_sorted _, sum_gruposSorted rows, rfl⟩
  · intro r _ htag
    unfold tagKey
    rw [if_pos htag]
    decide
  · intro r _ htag
    unfold tagKey
    rw [if_neg htag]
  · intro r hr
    exact mem_sortStrs.mpr (mem_grupoKeys hr)

/-- Witness for C5: the single-space tag row is grouped by its trimmed (empty) tag. -/
theorem C5_witness : tagKey rowSpaceTag = pyStrip rowSpaceTag.tag :=
  (C5_amended_grouped_report [rowSpaceTag]).2.1 rowSpaceTag (List.mem_cons_self _ _)
    (by decide)

/-- Claim C6: parsing after formatting is the identity on non-negative amounts with at
most two decimal places (`v * 100` a natural number); `format_currency_brl 1234.56` is
`"1.234,56"`; an absent amount formats to the empty string; parsing the empty string (or
`None`) yields absent. -/
theorem C6_amount_roundtrip :
    (∀ v : ℚ, 0 ≤ v → (∃ n : ℕ, v * 100 = (n : ℚ)) →
        parse_brl_number (some (format_currency_brl (some v))) = some v)
      ∧ format_currency_brl (some (1234.56 : ℚ)) = toPyStr "1.234,56"
      ∧ format_currency_brl none = []
      ∧ parse_brl_number (some []) = none
      ∧ parse_brl_number none = none := by
  refine ⟨?_, ?_, rfl, by decide, rfl⟩
  · rintro v hv ⟨n, hn⟩
    exact parse_format_roundtrip v hv n hn
  · have hfmt := format_nonneg_eq (1234.56 : ℚ) (by norm_num) 123456 (by norm_num)
    rw [hfmt]
    decide

/-- Witness for C6: the round trip at `1234.56`. -/
theorem C6_witness :
    parse_brl_number (some (format_currency_brl (some (1234.56 : ℚ))))
      = some (1234.56 : ℚ) :=
  C6_amount_roundtrip.1 (1234.56 : ℚ) (by norm_num) ⟨123456, by norm_num⟩

/-- Claim C7 counterexample: an interior run of two tab characters is an interior
whitespace run, but `normalize_status` does not collapse it to a space — only runs of the
space character are collapsed. -/
theorem C7_counterexample :
    isWS 9 = true
      ∧ normalize_status (toPyStr "a\t\tb") = toPyStr "A\t\tB"
      ∧ normalize_status (toPyStr "a\t\tb") ≠ toPyStr "A B" := by
  refine ⟨rfl, by decide, by decide⟩

/-- Claim C7 (amended): `normalize_status` is idempotent, trims and uppercases, and
collapses every interior run of space characters (not tabs or other whitespace) to exactly
one space — its output never contains two adjacent spaces; `" paid   now "` maps to
`"PAID NOW"` and empty input yields the empty string. -/
theorem C7_amended_idempotent (x : PyStr) :
    normalize_status (normalize_status x) = normalize_status x
      ∧ hasDblSpace (normalize_status x) = false
      ∧ pyStrip (normalize_status x) = normalize_status x
      ∧ pyUpper (normalize_status x) = normalize_status x
      ∧ normalize_status (toPyStr " paid   now ") = toPyStr "PAID NOW"
      ∧ normalize_status [] = [] :=
  ⟨normalize_status_idem x, hasDbl_normalize_status x, pyStrip_normalize_status x,
    pyUpper_normalize_status x, by decide, rfl⟩

/-- Witness for C7: idempotence at a concrete input. -/
theorem C7_witness :
    normalize_status (normalize_status (toPyStr " a  b ")) =
      normalize_status (toPyStr " a  b ") :=
  (C7_amended_idempotent (toPyStr " a  b ")).1

/-- Claim C8: an order-creation request whose tag or item description is blank after
trimming is rejected with no insert (the store is unchanged and the handler reports
failure); when both fields are present after trimming, the insert proceeds and the store
grows by exactly one row. -/
theorem C8_required_fields (store : List Pedido) (f : NovoForm) :
    ((pyStrip (f.tag.getD []) = [] ∨ pyStrip (f.descricao_itens.getD []) = []) →
        novo_pedido store f = (store, false))
      ∧ (pyStrip (f.tag.getD []) ≠ [] → pyStrip (f.descricao_itens.getD []) ≠ [] →
          (novo_pedido store f).2 = true
            ∧ (novo_pedido store f).1.length = store.length + 1) := by
  constructor
  · intro h
    unfold novo_pedido
    rw [if_pos]
    rcases h with h | h
    · left
      rw [show normalize_tag (f.tag.getD []) = pyUpper (pyStrip (f.tag.getD [])) from rfl,
        h]
      rfl
    · right
      exact h
  · intro h1 h2
    unfold novo_pedido
    rw [if_neg]
    · exact ⟨rfl, by simp⟩
    · intro hcon
      rcases hcon with h | h
      · exact h1 ((normalize_tag_nil_iff _).mp h)
      · exact h2 h

/-- Witness for C8: a form with a whitespace-only tag is rejected and the (empty) store
is unchanged. -/
theorem C8_witness : novo_pedido [] formBlankTag = ([], false) :=
  (C8_required_fields [] formBlankTag).1 (Or.inl (by decide))

/-- Claim C9: the import amount parser is total and never yields absent — numeric cells
pass through, `None`, blank and unparseable text yield `0.0`, and every row the importer
builds carries a present (non-null) amount — while the web form parser
`parse_brl_number` yields absent on empty or unparseable input. -/
theorem C9_import_amount_total :
    (∀ q : ℚ, parse_valor_import (XCell.num q) = q)
      ∧ parse_valor_import XCell.none = 0
      ∧ (∀ v : PyStr, pyStrip v = [] → parse_valor_import (XCell.str v) = 0)
      ∧ (∀ v : PyStr,
          pyFloat (((pyStrip v).filter (fun c => !(c == 46))).map
            (fun c => if c == 44 then 46 else c)) = none →
          parse_valor_import (XCell.str v) = 0)
      ∧ (∀ r : ImportRow, ((rowPedido r).valor_pedido).isSome = true)
      ∧ parse_valor_import (XCell.str (toPyStr "abc")) = 0
      ∧ parse_brl_number (some []) = none
      ∧ parse_brl_number (some (toPyStr "abc")) = none := by
  refine ⟨fun q => rfl, rfl, ?_, ?_, fun r => rfl, by decide, by decide, by decide⟩
  · intro v hv
    simp only [parse_valor_import]
    rw [if_pos hv]
  · intro v hpf
    simp only [parse_valor_import]
    split_ifs with hs
    · rfl
    · rw [hpf]

/-- Witness for C9: the unparseable text `"abc"` yields `0.0` through the
unparseable-input rule. -/
theorem C9_witness : parse_valor_import (XCell.str (toPyStr "abc")) = 0 :=
  C9_import_amount_total.2.2.2.1 (toPyStr "abc") (by decide)

/-- Claim C10: the import duplicate check fires iff at least one of the two fields is
non-empty and some stored row equals the incoming pair by exact byte equality — so a
case-differing PO number is not a duplicate, while a match on one non-empty field with
the other field empty on both sides is a duplicate. -/
theorem C10_exact_dedup_key (store : List Pedido) (pc sc : PyStr) :
    (ja_existe_pedido store pc sc = true
        ↔ ((pc ≠ [] ∨ sc ≠ []) ∧ ∃ p ∈ store, p.numero_pc = pc ∧ p.numero_sc = sc))
      ∧ ja_existe_pedido [pedidoPC1] (toPyStr "pc1") (toPyStr "SC1") = false
      ∧ ja_existe_pedido [pedidoEmptyPC] [] (toPyStr "SC1") = true :=
  ⟨ja_existe_iff store pc sc, by decide, by decide⟩

/-- Witness for C10: the exact pair (PC1, SC1) is detected as a duplicate. -/
theorem C10_witness :
    ja_existe_pedido [pedidoPC1] (toPyStr "PC1") (toPyStr "SC1") = true :=
  ((C10_exact_dedup_key [pedidoPC1] (toPyStr "PC1") (toPyStr "SC1")).1).mpr
    ⟨Or.inl (by decide), pedidoPC1, List.mem_cons_self _ _, rfl, rfl⟩

end PedidoSpec
